import Mathlib

/-!
# pa5-encfs: a shallow embedding of the FUSE handlers of `pa5-encfs.c`

The handlers are translated one by one over an explicit process state.  Every
library call a handler makes is a value of `Syscall`; the operating system is a
parameter `exec` that answers a call with a `Reply` and a new world.  A handler
threads a `Proc`: the world, the C variable `errno`, and the list of calls it
has made so far together with their replies.
-/

namespace EncFs

/-! ## C data -/

/-- A C string or byte buffer: the bytes before the terminating NUL. -/
abbrev CStr := List Char

/-- The terminating byte of a C string. -/
def NUL : Char := Char.ofNat 0

/-- The constant `PATH_MAX` of `<limits.h>` on Linux. -/
def PATH_MAX : Nat := 4096

/-- The constant `ENC_XATTR` defined on line 27 of the source. -/
def ENC_XATTR : CStr := "user.enc".toList

/-- The struct `enc_state`: the private data of the mount. -/
structure enc_state where
  key : CStr
  rootdir : CStr
  deriving DecidableEq

/-- The struct `timespec`. -/
structure timespec where
  tv_sec : Int
  tv_nsec : Int
  deriving DecidableEq

/-- The struct `timeval`. -/
structure timeval where
  tv_sec : Int
  tv_usec : Int
  deriving DecidableEq

/-- The fields of struct `dirent` the source reads. -/
structure dirent where
  d_ino : Nat
  d_type : Nat
  d_name : CStr
  deriving DecidableEq

/-- The struct `stat` as `enc_readdir` fills it: every field is zeroed by
`memset`, then `st_ino` and `st_mode` are assigned. -/
structure stat where
  st_ino : Nat
  st_mode : Nat
  deriving DecidableEq

/-- Conversion of a wider signed value to C `int` (32 bits, two's complement). -/
def toInt32 (x : Int) : Int := (x + 2 ^ 31) % 2 ^ 32 - 2 ^ 31

/-- The value of `size - 1` in `size_t` arithmetic (64 bits, unsigned). -/
def size_pred (size : Nat) : Nat := (size + 2 ^ 64 - 1) % 2 ^ 64

/-! Constants of `<fcntl.h>`, `<sys/stat.h>` and `<dirent.h>` on Linux. -/

def O_RDONLY : Nat := 0
def O_WRONLY : Nat := 1
def O_ACCMODE : Nat := 3
def O_CREAT : Nat := 0o100
def O_EXCL : Nat := 0o200
def S_IFMT : Nat := 0o170000
def S_IFIFO : Nat := 0o010000
def S_IFCHR : Nat := 0o020000
def S_IFDIR : Nat := 0o040000
def S_IFBLK : Nat := 0o060000
def S_IFREG : Nat := 0o100000
def S_IFLNK : Nat := 0o120000
def S_IFSOCK : Nat := 0o140000
def DT_UNKNOWN : Nat := 0
def DT_FIFO : Nat := 1
def DT_CHR : Nat := 2
def DT_DIR : Nat := 4
def DT_BLK : Nat := 6
def DT_REG : Nat := 8
def DT_LNK : Nat := 10
def DT_SOCK : Nat := 12

/-- The macro `S_ISREG`. -/
def S_ISREG (mode : Nat) : Bool := mode &&& S_IFMT == S_IFREG

/-- The macro `S_ISFIFO`. -/
def S_ISFIFO (mode : Nat) : Bool := mode &&& S_IFMT == S_IFIFO

/-! ## String library -/

/-- The string held by `dst` after `strcpy(dst, src)`. -/
def strcpy (src : CStr) : CStr := src

/-- The string held by `dst` after `strncat(dst, src, n)`: at most `n` bytes of
`src` are appended, then a NUL. -/
def strncat (dst src : CStr) (n : Nat) : CStr := dst ++ src.take n

/-- Bytes of storage a C string occupies, its terminating NUL included. -/
def storage (s : CStr) : Nat := s.length + 1

/-! ## enc_fullpath -/

/-- The string `enc_fullpath` leaves in `fpath`: `strcpy` of the root directory
followed by `strncat` of the path with bound `PATH_MAX`. -/
def enc_fullpath (data : enc_state) (path : CStr) : CStr :=
  strncat (strcpy data.rootdir) path PATH_MAX

/-- Number of bytes `enc_fullpath` stores starting at `fpath[0]`. -/
def enc_fullpath_size (data : enc_state) (path : CStr) : Nat :=
  storage (enc_fullpath data path)

/-- The two lines `char fpath[PATH_MAX]; enc_fullpath(fpath, path);` that open
most handlers.  The result is `none` when the stores run past the end of the
array, which is undefined behaviour in C. -/
def fpath_of (data : enc_state) (path : CStr) : Option CStr :=
  if enc_fullpath_size data path ≤ PATH_MAX then some (enc_fullpath data path) else none

/-! ## Library calls and the process state -/

/-- The library calls made by the handlers, with their arguments. -/
inductive Syscall where
  | lstat (path : CStr)
  | access (path : CStr) (mask : Int)
  | readlink (path : CStr) (bufsiz : Nat)
  | opendir (path : CStr)
  | readdir (dp : Int)
  | closedir (dp : Int)
  | open2 (path : CStr) (flags : Nat)
  | open3 (path : CStr) (flags : Nat) (mode : Nat)
  | close (fd : Int)
  | mkfifo (path : CStr) (mode : Nat)
  | mknod (path : CStr) (mode : Nat) (rdev : Nat)
  | mkdir (path : CStr) (mode : Nat)
  | unlink (path : CStr)
  | rmdir (path : CStr)
  | symlink (target linkpath : CStr)
  | rename (oldpath newpath : CStr)
  | link (oldpath newpath : CStr)
  | chmod (path : CStr) (mode : Nat)
  | lchown (path : CStr) (uid gid : Nat)
  | truncate (path : CStr) (length : Int)
  | utimes (path : CStr) (tv0 tv1 : timeval)
  | pread (fd : Int) (count : Nat) (offset : Int)
  | pwrite (fd : Int) (buf : List Char) (count : Nat) (offset : Int)
  | statvfs (path : CStr)
  | creat (path : CStr) (mode : Nat)
  | lsetxattr (path name : CStr) (value : List Char) (size : Nat) (flags : Int)
  | lgetxattr (path name : CStr) (size : Nat)
  | llistxattr (path : CStr) (size : Nat)
  | lremovexattr (path name : CStr)
  deriving DecidableEq

/-- The answer of the operating system to one call.  `ok ret data ent`: the call
succeeded with return value `ret` (a count, a descriptor, a stream handle or 0),
stored `data` in the caller's buffer, and, for `readdir`, returned the entry
`ent` (`none` at the end of the directory).  `fail e`: the call failed and set
`errno` to `e`. -/
inductive Reply where
  | ok (ret : Int) (data : List Char) (ent : Option dirent)
  | fail (errno : Int)
  deriving DecidableEq

/-- The C return value of a call returning `int` or `ssize_t`: -1 on failure. -/
def Reply.ret : Reply → Int
  | .ok v _ _ => v
  | .fail _ => -1

/-- The bytes a call stored in the caller's buffer. -/
def Reply.data : Reply → List Char
  | .ok _ d _ => d
  | .fail _ => []

/-- The process state a handler threads: the world behind the library calls, the
variable `errno`, and the calls made so far with their replies, oldest first. -/
structure Proc (W : Type) where
  world : W
  errno : Int
  trace : List (Syscall × Reply)

/-- One library call: the world answers, a failing call assigns `errno`, and the
call is appended to the trace. -/
def call {W : Type} (exec : Syscall → W → Reply × W) (c : Syscall) (p : Proc W) :
    Reply × Proc W :=
  let r := exec c p.world
  (r.1, { world := r.2
          errno := match r.1 with
            | .fail e => e
            | .ok _ _ _ => p.errno
          trace := p.trace ++ [(c, r.1)] })

/-- What a handler hands back: its `int` return value, the bytes it stored in
the caller's buffer, and the process state. -/
structure Ret (W : Type) where
  ret : Int
  out : List Char
  proc : Proc W

/-- The common tail `if (res == -1) return -errno; return 0;`. -/
def finish {W : Type} (r : Reply × Proc W) : Ret W :=
  if r.1.ret = -1 then ⟨-r.2.errno, [], r.2⟩ else ⟨0, [], r.2⟩

/-- The tail of the extended-attribute handlers that return a size:
`if (res == -1) return -errno; return res;` with `int res`. -/
def finish_size {W : Type} (r : Reply × Proc W) : Ret W :=
  if toInt32 r.1.ret = -1 then ⟨-r.2.errno, [], r.2⟩ else ⟨toInt32 r.1.ret, r.1.data, r.2⟩

/-! ## The handlers -/

/-- The handler `enc_getattr`. -/
def enc_getattr {W : Type} (exec : Syscall → W → Reply × W) (data : enc_state)
    (path : CStr) (p : Proc W) : Option (Ret W) :=
  (fpath_of data path).map fun fpath =>
    finish (call exec (.lstat fpath) p)

/-- The handler `enc_access`. -/
def enc_access {W : Type} (exec : Syscall → W → Reply × W) (data : enc_state)
    (path : CStr) (mask : Int) (p : Proc W) : Option (Ret W) :=
  (fpath_of data path).map fun fpath =>
    finish (call exec (.access fpath mask) p)

/-- The handler `enc_readlink`: on success the bytes read are followed by a NUL
stored at `buf[res]`. -/
def enc_readlink {W : Type} (exec : Syscall → W → Reply × W) (data : enc_state)
    (path : CStr) (size : Nat) (p : Proc W) : Option (Ret W) :=
  (fpath_of data path).map fun fpath =>
    let r := call exec (.readlink fpath (size_pred size)) p
    let res := toInt32 r.1.ret
    if res = -1 then ⟨-r.2.errno, [], r.2⟩
    else ⟨0, r.1.data.take res.toNat ++ [NUL], r.2⟩

/-- The loop of `enc_readdir`: `readdir` until it returns NULL or the filler
returns nonzero.  `fuel` bounds the number of iterations; `none` means the
bound was reached. -/
def enc_readdir_loop {W B : Type} (exec : Syscall → W → Reply × W)
    (filler : B → CStr → stat → Int → Int × B) (dp : Int) :
    Nat → B → Proc W → Option (B × Proc W)
  | 0, _, _ => none
  | fuel + 1, buf, p =>
    let r := call exec (.readdir dp) p
    match r.1 with
    | .ok _ _ (some de) =>
      let st : stat := { st_ino := de.d_ino, st_mode := de.d_type <<< 12 }
      let f := filler buf de.d_name st 0
      if f.1 ≠ 0 then some (f.2, r.2) else enc_readdir_loop exec filler dp fuel f.2 r.2
    | _ => some (buf, r.2)

/-- The handler `enc_readdir`.  The result carries the return value, the
caller's buffer as the filler left it, and the process state. -/
def enc_readdir {W B : Type} (exec : Syscall → W → Reply × W) (data : enc_state)
    (fuel : Nat) (path : CStr) (buf : B) (filler : B → CStr → stat → Int → Int × B)
    (p : Proc W) : Option (Int × B × Proc W) :=
  match fpath_of data path with
  | none => none
  | some fpath =>
    let r := call exec (.opendir fpath) p
    match r.1 with
    | .fail _ => some (-r.2.errno, buf, r.2)
    | .ok dp _ _ =>
      match enc_readdir_loop exec filler dp fuel buf r.2 with
      | none => none
      | some l =>
        let c := call exec (.closedir dp) l.2
        some (0, l.1, c.2)

/-- The handler `enc_mknod`. -/
def enc_mknod {W : Type} (exec : Syscall → W → Reply × W) (data : enc_state)
    (path : CStr) (mode rdev : Nat) (p : Proc W) : Option (Ret W) :=
  (fpath_of data path).map fun fpath =>
    if S_ISREG mode then
      let r := call exec (.open3 fpath (O_CREAT ||| O_EXCL ||| O_WRONLY) mode) p
      if r.1.ret ≥ 0 then finish (call exec (.close r.1.ret) r.2)
      else finish r
    else if S_ISFIFO mode then
      finish (call exec (.mkfifo fpath mode) p)
    else
      finish (call exec (.mknod fpath mode rdev) p)

/-- The handler `enc_mkdir`. -/
def enc_mkdir {W : Type} (exec : Syscall → W → Reply × W) (data : enc_state)
    (path : CStr) (mode : Nat) (p : Proc W) : Option (Ret W) :=
  (fpath_of data path).map fun fpath =>
    finish (call exec (.mkdir fpath mode) p)

/-- The handler `enc_unlink`. -/
def enc_unlink {W : Type} (exec : Syscall → W → Reply × W) (data : enc_state)
    (path : CStr) (p : Proc W) : Option (Ret W) :=
  (fpath_of data path).map fun fpath =>
    finish (call exec (.unlink fpath) p)

/-- The handler `enc_rmdir`. -/
def enc_rmdir {W : Type} (exec : Syscall → W → Reply × W) (data : enc_state)
    (path : CStr) (p : Proc W) : Option (Ret W) :=
  (fpath_of data path).map fun fpath =>
    finish (call exec (.rmdir fpath) p)

/-- The handler `enc_symlink`: it declares no `fpath` and calls `symlink` on its
two arguments as received. -/
def enc_symlink {W : Type} (exec : Syscall → W → Reply × W) (_data : enc_state)
    (src dst : CStr) (p : Proc W) : Option (Ret W) :=
  some (finish (call exec (.symlink src dst) p))

/-- The handler `enc_rename`: it declares no `fpath` and calls `rename` on its
two arguments as received. -/
def enc_rename {W : Type} (exec : Syscall → W → Reply × W) (_data : enc_state)
    (src dst : CStr) (p : Proc W) : Option (Ret W) :=
  some (finish (call exec (.rename src dst) p))

/-- The handler `enc_link`: it declares no `fpath` and calls `link` on its two
arguments as received. -/
def enc_link {W : Type} (exec : Syscall → W → Reply × W) (_data : enc_state)
    (src dst : CStr) (p : Proc W) : Option (Ret W) :=
  some (finish (call exec (.link src dst) p))

/-- The handler `enc_chmod`. -/
def enc_chmod {W : Type} (exec : Syscall → W → Reply × W) (data : enc_state)
    (path : CStr) (mode : Nat) (p : Proc W) : Option (Ret W) :=
  (fpath_of data path).map fun fpath =>
    finish (call exec (.chmod fpath mode) p)

/-- The handler `enc_chown`. -/
def enc_chown {W : Type} (exec : Syscall → W → Reply × W) (data : enc_state)
    (path : CStr) (uid gid : Nat) (p : Proc W) : Option (Ret W) :=
  (fpath_of data path).map fun fpath =>
    finish (call exec (.lchown fpath uid gid) p)

/-- The handler `enc_truncate`. -/
def enc_truncate {W : Type} (exec : Syscall → W → Reply × W) (data : enc_state)
    (path : CStr) (size : Int) (p : Proc W) : Option (Ret W) :=
  (fpath_of data path).map fun fpath =>
    finish (call exec (.truncate fpath size) p)

/-- The conversion `enc_utimens` applies to each of the two times: the seconds
are copied and the nanoseconds are divided by 1000 (C integer division). -/
def utimens_tv (ts : timespec) : timeval :=
  { tv_sec := ts.tv_sec, tv_usec := Int.tdiv ts.tv_nsec 1000 }

/-- The handler `enc_utimens`. -/
def enc_utimens {W : Type} (exec : Syscall → W → Reply × W) (data : enc_state)
    (path : CStr) (ts0 ts1 : timespec) (p : Proc W) : Option (Ret W) :=
  (fpath_of data path).map fun fpath =>
    finish (call exec (.utimes fpath (utimens_tv ts0) (utimens_tv ts1)) p)

/-- The handler `enc_open`: the result of `close` is discarded. -/
def enc_open {W : Type} (exec : Syscall → W → Reply × W) (data : enc_state)
    (path : CStr) (flags : Nat) (p : Proc W) : Option (Ret W) :=
  (fpath_of data path).map fun fpath =>
    let r := call exec (.open2 fpath flags) p
    if r.1.ret = -1 then ⟨-r.2.errno, [], r.2⟩
    else
      let c := call exec (.close r.1.ret) r.2
      ⟨0, [], c.2⟩

/-- The handler `enc_read`: `open`, `pread`, `close`; `errno` is read before
`close` is called and the result of `close` is discarded. -/
def enc_read {W : Type} (exec : Syscall → W → Reply × W) (data : enc_state)
    (path : CStr) (size : Nat) (offset : Int) (p : Proc W) : Option (Ret W) :=
  (fpath_of data path).map fun fpath =>
    let r := call exec (.open2 fpath O_RDONLY) p
    if r.1.ret = -1 then ⟨-r.2.errno, [], r.2⟩
    else
      let r2 := call exec (.pread r.1.ret size offset) r.2
      let res := toInt32 r2.1.ret
      let res := if res = -1 then -r2.2.errno else res
      let c := call exec (.close r.1.ret) r2.2
      ⟨res, r2.1.data, c.2⟩

/-- The handler `enc_write`: `open`, `pwrite`, `close`. -/
def enc_write {W : Type} (exec : Syscall → W → Reply × W) (data : enc_state)
    (path : CStr) (buf : List Char) (size : Nat) (offset : Int) (p : Proc W) :
    Option (Ret W) :=
  (fpath_of data path).map fun fpath =>
    let r := call exec (.open2 fpath O_WRONLY) p
    if r.1.ret = -1 then ⟨-r.2.errno, [], r.2⟩
    else
      let r2 := call exec (.pwrite r.1.ret buf size offset) r.2
      let res := toInt32 r2.1.ret
      let res := if res = -1 then -r2.2.errno else res
      let c := call exec (.close r.1.ret) r2.2
      ⟨res, [], c.2⟩

/-- The handler `enc_statfs`. -/
def enc_statfs {W : Type} (exec : Syscall → W → Reply × W) (data : enc_state)
    (path : CStr) (p : Proc W) : Option (Ret W) :=
  (fpath_of data path).map fun fpath =>
    finish (call exec (.statvfs fpath) p)

/-- The handler `enc_create`: `creat`, then `close` with its result discarded. -/
def enc_create {W : Type} (exec : Syscall → W → Reply × W) (data : enc_state)
    (path : CStr) (mode : Nat) (p : Proc W) : Option (Ret W) :=
  (fpath_of data path).map fun fpath =>
    let r := call exec (.creat fpath mode) p
    if r.1.ret = -1 then ⟨-r.2.errno, [], r.2⟩
    else
      let c := call exec (.close r.1.ret) r.2
      ⟨0, [], c.2⟩

/-- The handler `enc_release`, a stub. -/
def enc_release {W : Type} (p : Proc W) : Option (Ret W) := some ⟨0, [], p⟩

/-- The handler `enc_fsync`, a stub. -/
def enc_fsync {W : Type} (p : Proc W) : Option (Ret W) := some ⟨0, [], p⟩

/-- The handler `enc_setxattr`. -/
def enc_setxattr {W : Type} (exec : Syscall → W → Reply × W) (data : enc_state)
    (path name : CStr) (value : List Char) (size : Nat) (flags : Int) (p : Proc W) :
    Option (Ret W) :=
  (fpath_of data path).map fun fpath =>
    finish (call exec (.lsetxattr fpath name value size flags) p)

/-- The handler `enc_getxattr`. -/
def enc_getxattr {W : Type} (exec : Syscall → W → Reply × W) (data : enc_state)
    (path name : CStr) (size : Nat) (p : Proc W) : Option (Ret W) :=
  (fpath_of data path).map fun fpath =>
    finish_size (call exec (.lgetxattr fpath name size) p)

/-- The handler `enc_listxattr`. -/
def enc_listxattr {W : Type} (exec : Syscall → W → Reply × W) (data : enc_state)
    (path : CStr) (size : Nat) (p : Proc W) : Option (Ret W) :=
  (fpath_of data path).map fun fpath =>
    finish_size (call exec (.llistxattr fpath size) p)

/-- The handler `enc_removexattr`. -/
def enc_removexattr {W : Type} (exec : Syscall → W → Reply × W) (data : enc_state)
    (path name : CStr) (p : Proc W) : Option (Ret W) :=
  (fpath_of data path).map fun fpath =>
    finish (call exec (.lremovexattr fpath name) p)

/-! ## The operation table -/

/-- A request of the host framework: one constructor per member of `enc_oper`,
with the arguments the framework passes. -/
inductive Request (B : Type) where
  | getattr (path : CStr)
  | access (path : CStr) (mask : Int)
  | readlink (path : CStr) (size : Nat)
  | readdir (path : CStr) (buf : B) (filler : B → CStr → stat → Int → Int × B)
  | mknod (path : CStr) (mode rdev : Nat)
  | mkdir (path : CStr) (mode : Nat)
  | symlink (src dst : CStr)
  | unlink (path : CStr)
  | rmdir (path : CStr)
  | rename (src dst : CStr)
  | link (src dst : CStr)
  | chmod (path : CStr) (mode : Nat)
  | chown (path : CStr) (uid gid : Nat)
  | truncate (path : CStr) (size : Int)
  | utimens (path : CStr) (ts0 ts1 : timespec)
  | open_file (path : CStr) (flags : Nat)
  | read (path : CStr) (size : Nat) (offset : Int)
  | write (path : CStr) (buf : List Char) (size : Nat) (offset : Int)
  | statfs (path : CStr)
  | create (path : CStr) (mode : Nat)
  | release (path : CStr)
  | fsync (path : CStr) (isdatasync : Int)
  | setxattr (path name : CStr) (value : List Char) (size : Nat) (flags : Int)
  | getxattr (path name : CStr) (size : Nat)
  | listxattr (path : CStr) (size : Nat)
  | removexattr (path name : CStr)

/-- Return value and final process state of a handler result. -/
def Ret.code {W : Type} (r : Ret W) : Int × Proc W := (r.ret, r.proc)

/-- The table `enc_oper`: the handler bound to each request, reduced to its
return value and final process state. -/
def enc_oper {W B : Type} (exec : Syscall → W → Reply × W) (data : enc_state)
    (fuel : Nat) (req : Request B) (p : Proc W) : Option (Int × Proc W) :=
  match req with
  | .getattr path => (enc_getattr exec data path p).map Ret.code
  | .access path mask => (enc_access exec data path mask p).map Ret.code
  | .readlink path size => (enc_readlink exec data path size p).map Ret.code
  | .readdir path buf filler =>
    (enc_readdir exec data fuel path buf filler p).map fun r => (r.1, r.2.2)
  | .mknod path mode rdev => (enc_mknod exec data path mode rdev p).map Ret.code
  | .mkdir path mode => (enc_mkdir exec data path mode p).map Ret.code
  | .symlink src dst => (enc_symlink exec data src dst p).map Ret.code
  | .unlink path => (enc_unlink exec data path p).map Ret.code
  | .rmdir path => (enc_rmdir exec data path p).map Ret.code
  | .rename src dst => (enc_rename exec data src dst p).map Ret.code
  | .link src dst => (enc_link exec data src dst p).map Ret.code
  | .chmod path mode => (enc_chmod exec data path mode p).map Ret.code
  | .chown path uid gid => (enc_chown exec data path uid gid p).map Ret.code
  | .truncate path size => (enc_truncate exec data path size p).map Ret.code
  | .utimens path ts0 ts1 => (enc_utimens exec data path ts0 ts1 p).map Ret.code
  | .open_file path flags => (enc_open exec data path flags p).map Ret.code
  | .read path size offset => (enc_read exec data path size offset p).map Ret.code
  | .write path buf size offset =>
    (enc_write exec data path buf size offset p).map Ret.code
  | .statfs path => (enc_statfs exec data path p).map Ret.code
  | .create path mode => (enc_create exec data path mode p).map Ret.code
  | .release _ => (enc_release p).map Ret.code
  | .fsync _ _ => (enc_fsync p).map Ret.code
  | .setxattr path name value size flags =>
    (enc_setxattr exec data path name value size flags p).map Ret.code
  | .getxattr path name size => (enc_getxattr exec data path name size p).map Ret.code
  | .listxattr path size => (enc_listxattr exec data path size p).map Ret.code
  | .removexattr path name => (enc_removexattr exec data path name p).map Ret.code

/-! ## The storage behind the library calls

A model of the vault directory: regular files with their bytes and extended
attributes, directories with their entries, and the tables of open descriptors
and directory streams.  `vault_exec` gives the POSIX behaviour of the calls the
content, attribute and directory handlers make; calls outside this fragment
fail with `ENOSYS`. -/

def ENOENT : Int := 2
def EBADF : Int := 9
def EEXIST : Int := 17
def EINVAL : Int := 22
def ERANGE : Int := 34
def ENOSYS : Int := 38
def ENODATA : Int := 61
def XATTR_CREATE : Int := 1
def XATTR_REPLACE : Int := 2

/-- A regular file of the vault: its bytes and its extended attributes. -/
structure Inode where
  content : List Char
  xattrs : List (CStr × List Char)
  deriving DecidableEq

/-- The vault: files and directories by path, open descriptors (path and open
flags), open directory streams (entries not yet returned), and the number the
next descriptor or stream receives. -/
structure Vault where
  files : CStr → Option Inode
  dirs : CStr → Option (List dirent)
  fds : Int → Option (CStr × Nat)
  streams : Int → Option (List dirent)
  next : Nat

/-- The bytes `count` bytes long at most that start at `offset`. -/
def slice (bytes : List Char) (offset count : Nat) : List Char :=
  (bytes.drop offset).take count

/-- File content after `pwrite` of `buf` at `offset`: the bytes are overwritten
in place, the file grows when the write ends past its end, and a gap between
the old end and `offset` reads as NUL bytes.  Writing no bytes changes nothing. -/
def splice (old : List Char) (offset : Nat) (buf : List Char) : List Char :=
  if buf = [] then old
  else (old ++ List.replicate (offset - old.length) NUL).take offset ++ buf
    ++ old.drop (offset + buf.length)

/-- Value of the attribute `name`, if stored. -/
def xattr_get (xs : List (CStr × List Char)) (name : CStr) : Option (List Char) :=
  (xs.find? fun kv => kv.1 = name).map Prod.snd

/-- Attributes after `name` is set to `value`. -/
def xattr_set (xs : List (CStr × List Char)) (name : CStr) (value : List Char) :
    List (CStr × List Char) :=
  if (xattr_get xs name).isSome then
    xs.map fun kv => if kv.1 = name then (name, value) else kv
  else xs ++ [(name, value)]

/-- Attributes after `name` is removed. -/
def xattr_remove (xs : List (CStr × List Char)) (name : CStr) : List (CStr × List Char) :=
  xs.filter fun kv => kv.1 ≠ name

/-- The buffer `llistxattr` fills: every name followed by a NUL. -/
def xattr_names (xs : List (CStr × List Char)) : List Char :=
  (xs.map fun kv => kv.1 ++ [NUL]).flatten

/-- A call that returns a size and fills a buffer of `size` bytes with `bytes`:
with `size` 0 only the length is returned, a buffer too small fails with
`ERANGE`. -/
def sized_reply (bytes : List Char) (size : Nat) : Reply :=
  if size = 0 then .ok bytes.length [] none
  else if size < bytes.length then .fail ERANGE
  else .ok bytes.length bytes none

/-- The vault with the file at `path` replaced by `f`. -/
def set_file (v : Vault) (path : CStr) (f : Inode) : Vault :=
  { v with files := Function.update v.files path (some f) }

/-- The behaviour of the library calls on the vault. -/
def vault_exec : Syscall → Vault → Reply × Vault
  | .open2 path flags, v =>
    match v.files path with
    | none => (.fail ENOENT, v)
    | some _ =>
      (.ok v.next [] none,
        { v with fds := Function.update v.fds v.next (some (path, flags)), next := v.next + 1 })
  | .creat path _, v =>
    let xs := match v.files path with
      | none => []
      | some f => f.xattrs
    (.ok v.next [] none,
      { v with files := Function.update v.files path (some ⟨[], xs⟩),
               fds := Function.update v.fds v.next (some (path, O_WRONLY)),
               next := v.next + 1 })
  | .close fd, v =>
    match v.fds fd with
    | none => (.fail EBADF, v)
    | some _ => (.ok 0 [] none, { v with fds := Function.update v.fds fd none })
  | .pread fd count offset, v =>
    match v.fds fd with
    | none => (.fail EBADF, v)
    | some (path, flags) =>
      if flags &&& O_ACCMODE = O_WRONLY then (.fail EBADF, v)
      else if offset < 0 then (.fail EINVAL, v)
      else match v.files path with
        | none => (.fail EBADF, v)
        | some f =>
          (.ok (slice f.content offset.toNat count).length
            (slice f.content offset.toNat count) none, v)
  | .pwrite fd buf count offset, v =>
    match v.fds fd with
    | none => (.fail EBADF, v)
    | some (path, flags) =>
      if flags &&& O_ACCMODE = O_RDONLY then (.fail EBADF, v)
      else if offset < 0 then (.fail EINVAL, v)
      else match v.files path with
        | none => (.fail EBADF, v)
        | some f =>
          (.ok (buf.take count).length [] none,
            set_file v path ⟨splice f.content offset.toNat (buf.take count), f.xattrs⟩)
  | .lsetxattr path name value size flags, v =>
    match v.files path with
    | none => (.fail ENOENT, v)
    | some f =>
      if flags = XATTR_CREATE ∧ (xattr_get f.xattrs name).isSome then (.fail EEXIST, v)
      else if flags = XATTR_REPLACE ∧ (xattr_get f.xattrs name).isNone then (.fail ENODATA, v)
      else
        (.ok 0 [] none,
          set_file v path ⟨f.content, xattr_set f.xattrs name (value.take size)⟩)
  | .lgetxattr path name size, v =>
    match v.files path with
    | none => (.fail ENOENT, v)
    | some f =>
      match xattr_get f.xattrs name with
      | none => (.fail ENODATA, v)
      | some value => (sized_reply value size, v)
  | .llistxattr path size, v =>
    match v.files path with
    | none => (.fail ENOENT, v)
    | some f => (sized_reply (xattr_names f.xattrs) size, v)
  | .lremovexattr path name, v =>
    match v.files path with
    | none => (.fail ENOENT, v)
    | some f =>
      match xattr_get f.xattrs name with
      | none => (.fail ENODATA, v)
      | some _ =>
        (.ok 0 [] none,
          set_file v path ⟨f.content, xattr_remove f.xattrs name⟩)
  | .opendir path, v =>
    match v.dirs path with
    | none => (.fail ENOENT, v)
    | some es =>
      (.ok v.next [] none,
        { v with streams := Function.update v.streams v.next (some es), next := v.next + 1 })
  | .readdir dp, v =>
    match v.streams dp with
    | none => (.fail EBADF, v)
    | some [] => (.ok 0 [] none, v)
    | some (e :: es) =>
      (.ok 0 [] (some e), { v with streams := Function.update v.streams dp (some es) })
  | .closedir dp, v =>
    match v.streams dp with
    | none => (.fail EBADF, v)
    | some _ => (.ok 0 [] none, { v with streams := Function.update v.streams dp none })
  | _, v => (.fail ENOSYS, v)

/-- A process about to run a handler on the vault `v`. -/
def start (v : Vault) : Proc Vault := { world := v, errno := 0, trace := [] }

/-- A vault that holds the single regular file `f` at `path` and the single
directory `es` at `dir`. -/
def vault_with (path : CStr) (f : Inode) (dir : CStr) (es : List dirent) : Vault :=
  { files := fun q => if q = path then some f else none
    dirs := fun q => if q = dir then some es else none
    fds := fun _ => none
    streams := fun _ => none
    next := 3 }

/-- A world that answers the calls with a prepared list of replies, in order;
when the list is exhausted every call succeeds with 0. -/
def script_exec : Syscall → List Reply → Reply × List Reply
  | _, [] => (.ok 0 [] none, [])
  | _, r :: rs => (r, rs)

/-- A process about to run a handler against the replies `rs`. -/
def scripted (rs : List Reply) : Proc (List Reply) := { world := rs, errno := 0, trace := [] }

/-- A filler that accepts every entry: it appends the name and the stat to the
buffer and returns 0. -/
def accept_all (buf : List (CStr × stat)) (name : CStr) (st : stat) (_off : Int) :
    Int × List (CStr × stat) :=
  (0, buf ++ [(name, st)])

/-- The entry `enc_readdir` passes to the filler for a directory entry. -/
def fill_entry (de : dirent) : CStr × stat :=
  (de.d_name, { st_ino := de.d_ino, st_mode := de.d_type <<< 12 })

/-- The file-type bits of `<sys/stat.h>` that belong to a `d_type` value of
`<dirent.h>`. -/
def type_bits (d_type : Nat) : Option Nat :=
  if d_type = DT_FIFO then some S_IFIFO
  else if d_type = DT_CHR then some S_IFCHR
  else if d_type = DT_DIR then some S_IFDIR
  else if d_type = DT_BLK then some S_IFBLK
  else if d_type = DT_REG then some S_IFREG
  else if d_type = DT_LNK then some S_IFLNK
  else if d_type = DT_SOCK then some S_IFSOCK
  else none

/-- Number of consecutive `/` bytes of `s` around position `i`: those that end
just before `i` plus those that start at `i`. -/
def junction_slashes (s : CStr) (i : Nat) : Nat :=
  ((s.take i).reverse.takeWhile fun c => c = '/').length
    + ((s.drop i).takeWhile fun c => c = '/').length

/-- The calls whose failure a handler reports: every call except `readdir` and
`closedir`, and except `close`, which only `enc_mknod` tests. -/
def tested {B : Type} (req : Request B) (c : Syscall) : Bool :=
  match c with
  | .readdir _ => false
  | .closedir _ => false
  | .close _ =>
    match req with
    | .mknod _ _ _ => true
    | _ => false
  | _ => true

/-- A reply whose return value, on success, is non-negative and fits in `int`. -/
def in_range : Reply → Prop
  | .ok v _ _ => 0 ≤ v ∧ v < 2 ^ 31
  | .fail _ => True

/-- The calls whose return value is a byte count that the handler hands back. -/
def counts (c : Syscall) : Bool :=
  match c with
  | .pread _ _ _ => true
  | .pwrite _ _ _ _ => true
  | .lgetxattr _ _ _ => true
  | .llistxattr _ _ => true
  | _ => false

/-- The path of a request that its handler maps with `enc_fullpath`, if any. -/
def mapped_path {B : Type} (req : Request B) : Option CStr :=
  match req with
  | .getattr path => some path
  | .access path _ => some path
  | .readlink path _ => some path
  | .readdir path _ _ => some path
  | .mknod path _ _ => some path
  | .mkdir path _ => some path
  | .symlink _ _ => none
  | .unlink path => some path
  | .rmdir path => some path
  | .rename _ _ => none
  | .link _ _ => none
  | .chmod path _ => some path
  | .chown path _ _ => some path
  | .truncate path _ => some path
  | .utimens path _ _ => some path
  | .open_file path _ => some path
  | .read path _ _ => some path
  | .write path _ _ _ => some path
  | .statfs path => some path
  | .create path _ => some path
  | .release _ => none
  | .fsync _ _ => none
  | .setxattr path _ _ _ _ => some path
  | .getxattr path _ _ => some path
  | .listxattr path _ => some path
  | .removexattr path _ => some path

/-- The mapped path of the request, joined to the root, fits in `fpath`. -/
def fits {B : Type} (data : enc_state) (req : Request B) : Bool :=
  match mapped_path req with
  | none => true
  | some path => decide (data.rootdir.length + path.length < PATH_MAX)

/-- The request is for `enc_readdir`, the one handler with a loop. -/
def is_readdir {B : Type} (req : Request B) : Bool :=
  match req with
  | .readdir _ _ _ => true
  | _ => false

/-- The error rule of the handlers, for a request `req`, a return value and the
trace of calls made: provided every reply received is in range, a failed call
that the handler tests makes the return value the negated `errno` of that call,
and when no tested call failed the return value is 0 or the non-negative byte
count a call returned. -/
def reports {B : Type} (req : Request B) (ret : Int) (trace : List (Syscall × Reply)) : Prop :=
  (∀ c r, (c, r) ∈ trace → in_range r) →
    (∀ c e, (c, Reply.fail e) ∈ trace → tested req c = true → ret = -e)
    ∧ ((∀ c e, (c, Reply.fail e) ∈ trace → tested req c = false) →
        ret = 0 ∨ ∃ c v d ent,
          (c, Reply.ok v d ent) ∈ trace ∧ counts c = true ∧ ret = v ∧ 0 ≤ v)

/-- A path of 16 components, each a `/` followed by 255 bytes: 4096 bytes. -/
def long_path : CStr := (List.replicate 16 ('/' :: List.replicate 255 'a')).flatten

/-! ## The words of the specification -/

/-- Modelled from the spec: the cipher capability of section 4.3, whose
implementation (`aes-crypt.h`) is not among the sources: two operations on whole
byte sequences, parameterised by the mount key. -/
structure Cipher where
  encrypt : List Char → CStr → List Char
  decrypt : List Char → CStr → List Char

/-- Modelled from the spec: a cipher for concrete evaluation.  It reverses the
byte sequence, so that `decrypt (encrypt x k) k = x` for every `x` and `k`. -/
def reverse_cipher : Cipher :=
  { encrypt := fun x _ => x.reverse
    decrypt := fun x _ => x.reverse }

/-- The encryption flag of section 4.2 read from the attribute `ENC_XATTR`:
true when the attribute is stored with value `true`, false when it is absent
or holds anything else. -/
def marker (f : Inode) : Bool :=
  xattr_get f.xattrs ENC_XATTR == some "true".toList

/-- The read of section 4.4 in the words of the specification: the slice of the
stored bytes when the flag is false, the slice of the decrypted whole file when
it is true. -/
def spec_read (c : Cipher) (key : CStr) (f : Inode) (offset count : Nat) : List Char :=
  if marker f then slice (c.decrypt f.content key) offset count
  else slice f.content offset count

/-- The stored bytes the write of section 4.4 leaves, in the words of the
specification: the spliced bytes when the flag is false; when it is true, the
encryption of the old plaintext with the data spliced in. -/
def spec_write (c : Cipher) (key : CStr) (f : Inode) (offset : Nat) (buf : List Char) :
    List Char :=
  if marker f then c.encrypt (splice (c.decrypt f.content key) offset buf) key
  else splice f.content offset buf

/-! ## Path mapping -/

theorem enc_fullpath_eq (data : enc_state) (path : CStr) (h : path.length ≤ PATH_MAX) :
    enc_fullpath data path = data.rootdir ++ path := by
  simp [enc_fullpath, strncat, strcpy, List.take_of_length_le h]

theorem fpath_of_eq (data : enc_state) (path : CStr)
    (h : data.rootdir.length + path.length < PATH_MAX) :
    fpath_of data path = some (data.rootdir ++ path) := by
  have hp : path.length ≤ PATH_MAX := by omega
  simp [fpath_of, enc_fullpath_size, storage, enc_fullpath_eq data path hp]
  omega

/-- C5, as stated, fails: with the vault root `/` (what `realpath` returns for
the root directory) and the path `/a`, `enc_fullpath` yields `//a`, with two
separators at the junction. -/
theorem enc_fullpath_root_two_separators :
    enc_fullpath ⟨"k".toList, "/".toList⟩ "/a".toList = "//a".toList
    ∧ junction_slashes (enc_fullpath ⟨"k".toList, "/".toList⟩ "/a".toList) "/".toList.length = 2 := by
  decide

/-- C5, amended: for a vault root that does not end in `/` and a path that
begins with exactly one `/`, the two together shorter than `PATH_MAX`,
`enc_fullpath` yields the root followed by the path unchanged, one `/` stands
at the junction, and the result depends only on the root and the path. -/
theorem enc_fullpath_join (data : enc_state) (rest : CStr)
    (hroot : data.rootdir.getLast? ≠ some '/') (hrest : rest.head? ≠ some '/')
    (hfit : data.rootdir.length + ('/' :: rest).length < PATH_MAX) :
    fpath_of data ('/' :: rest) = some (data.rootdir ++ '/' :: rest)
    ∧ enc_fullpath data ('/' :: rest) = data.rootdir ++ '/' :: rest
    ∧ junction_slashes (enc_fullpath data ('/' :: rest)) data.rootdir.length = 1
    ∧ ∀ other : enc_state, other.rootdir = data.rootdir →
        enc_fullpath other ('/' :: rest) = enc_fullpath data ('/' :: rest) := by
  have hp : ('/' :: rest).length ≤ PATH_MAX := by omega
  refine ⟨fpath_of_eq data _ hfit, enc_fullpath_eq data _ hp, ?_, ?_⟩
  · rw [enc_fullpath_eq data _ hp]
    have h1 : (data.rootdir.reverse.takeWhile fun c => decide (c = '/')) = [] := by
      cases hr : data.rootdir.reverse with
      | nil => rfl
      | cons c cs =>
        have : data.rootdir.getLast? = some c := by
          rw [← List.head?_reverse, hr]; rfl
        rw [this] at hroot
        have hc : c ≠ '/' := fun hc => hroot (by rw [hc])
        simp [List.takeWhile, hc]
    have h2 : (rest.takeWhile fun c => decide (c = '/')) = [] := by
      cases rest with
      | nil => rfl
      | cons c cs =>
        have hc : c ≠ '/' := fun hc => hrest (by simp [hc])
        simp [List.takeWhile, hc]
    simp [junction_slashes, List.takeWhile, h1, h2]
  · intro other ho
    simp [enc_fullpath, ho]

theorem enc_fullpath_join_witness :
    fpath_of ⟨"k".toList, "/vault".toList⟩ ('/' :: "f".toList)
      = some ("/vault".toList ++ '/' :: "f".toList)
    ∧ enc_fullpath ⟨"k".toList, "/vault".toList⟩ ('/' :: "f".toList)
      = "/vault".toList ++ '/' :: "f".toList
    ∧ junction_slashes (enc_fullpath ⟨"k".toList, "/vault".toList⟩ ('/' :: "f".toList))
        "/vault".toList.length = 1
    ∧ ∀ other : enc_state, other.rootdir = "/vault".toList →
        enc_fullpath other ('/' :: "f".toList)
          = enc_fullpath ⟨"k".toList, "/vault".toList⟩ ('/' :: "f".toList) :=
  enc_fullpath_join ⟨"k".toList, "/vault".toList⟩ "f".toList (by decide) (by decide)
    (by decide)

theorem enc_fullpath_size_eq (data : enc_state) (path : CStr) :
    enc_fullpath_size data path = data.rootdir.length + min PATH_MAX path.length + 1 := by
  simp [enc_fullpath_size, storage, enc_fullpath, strncat, strcpy]

theorem length_flatten_replicate (n : Nat) (l : CStr) :
    (List.replicate n l).flatten.length = n * l.length := by
  induction n with
  | zero => simp
  | succ k ih =>
    rw [List.replicate_succ, List.flatten_cons, List.length_append, ih, Nat.succ_mul]
    omega

/-- C6 at a failing input: with the root `/vault` and a path of 4096 bytes the
string `enc_fullpath` stores, NUL included, is 4103 bytes long, more than the
`PATH_MAX` bytes of `fpath`; the bound given to `strncat` does not prevent it. -/
theorem enc_fullpath_overflow :
    "/vault".toList.length < PATH_MAX ∧ long_path.length ≤ PATH_MAX
    ∧ enc_fullpath_size ⟨"k".toList, "/vault".toList⟩ long_path = 4103
    ∧ PATH_MAX < enc_fullpath_size ⟨"k".toList, "/vault".toList⟩ long_path
    ∧ fpath_of ⟨"k".toList, "/vault".toList⟩ long_path = none := by
  have hl : long_path.length = 4096 := by
    unfold long_path
    rw [length_flatten_replicate, List.length_cons, List.length_replicate]
  have hs : enc_fullpath_size ⟨"k".toList, "/vault".toList⟩ long_path = 4103 := by
    rw [enc_fullpath_size_eq, hl]
    decide
  have hn : fpath_of ⟨"k".toList, "/vault".toList⟩ long_path = none := by
    unfold fpath_of
    rw [hs]
    decide
  exact ⟨by decide, by rw [hl]; decide, hs, by rw [hs]; decide, hn⟩

/-! ## Paths handed to the library calls -/

/-- C4 at a failing input: with the vault root `/vault`, `enc_rename`,
`enc_link` and `enc_symlink` hand the paths `/a` and `/b` to `rename`, `link`
and `symlink` as received, while `enc_fullpath` maps them to `/vault/a` and
`/vault/b`. -/
theorem rename_link_symlink_unmapped :
    (enc_rename script_exec ⟨"k".toList, "/vault".toList⟩ "/a".toList "/b".toList
        (scripted [])).map (fun r => r.proc.trace)
      = some [(.rename "/a".toList "/b".toList, .ok 0 [] none)]
    ∧ (enc_link script_exec ⟨"k".toList, "/vault".toList⟩ "/a".toList "/b".toList
        (scripted [])).map (fun r => r.proc.trace)
      = some [(.link "/a".toList "/b".toList, .ok 0 [] none)]
    ∧ (enc_symlink script_exec ⟨"k".toList, "/vault".toList⟩ "a".toList "/b".toList
        (scripted [])).map (fun r => r.proc.trace)
      = some [(.symlink "a".toList "/b".toList, .ok 0 [] none)]
    ∧ enc_fullpath ⟨"k".toList, "/vault".toList⟩ "/a".toList = "/vault/a".toList
    ∧ enc_fullpath ⟨"k".toList, "/vault".toList⟩ "/b".toList = "/vault/b".toList
    ∧ "/a".toList ≠ "/vault/a".toList ∧ "/b".toList ≠ "/vault/b".toList := by
  decide

/-! ## Timestamps -/

/-- C10, as stated, fails: for the times (5 s, 1 ns) and (7 s, 999999999 ns)
`enc_utimens` hands (5 s, 0 us) and (7 s, 999999 us) to `utimes`, and
0 * 1000 is not 1. -/
theorem enc_utimens_drops_nanoseconds :
    (enc_utimens script_exec ⟨"k".toList, "/vault".toList⟩ "/f".toList ⟨5, 1⟩ ⟨7, 999999999⟩
        (scripted [])).map (fun r => r.proc.trace)
      = some [(.utimes "/vault/f".toList ⟨5, 0⟩ ⟨7, 999999⟩, .ok 0 [] none)]
    ∧ (utimens_tv ⟨5, 1⟩).tv_usec * 1000 ≠ (1 : Int)
    ∧ (utimens_tv ⟨7, 999999999⟩).tv_usec * 1000 ≠ (999999999 : Int) := by
  decide

theorem utimens_tv_bounds (ts : timespec) (h : 0 ≤ ts.tv_nsec) :
    (utimens_tv ts).tv_sec = ts.tv_sec
    ∧ (utimens_tv ts).tv_usec * 1000 ≤ ts.tv_nsec
    ∧ ts.tv_nsec < (utimens_tv ts).tv_usec * 1000 + 1000
    ∧ ((utimens_tv ts).tv_usec * 1000 = ts.tv_nsec ↔ ts.tv_nsec % 1000 = 0) := by
  have hd : Int.tdiv ts.tv_nsec 1000 = ts.tv_nsec / 1000 :=
    Int.tdiv_eq_ediv h (by decide)
  simp only [utimens_tv, hd]
  refine ⟨trivial, ?_, ?_, ?_⟩ <;> omega

/-- C10, amended: for every pair of times with `0 <= tv_nsec <= 999999999`,
`enc_utimens` hands to `utimes`, on the mapped path, times whose `tv_sec` is
unchanged and whose `tv_usec` is `tv_nsec / 1000` rounded down, so that
`tv_usec * 1000 <= tv_nsec < tv_usec * 1000 + 1000`, with equality exactly when
`tv_nsec` is a multiple of 1000. -/
theorem enc_utimens_truncates {W : Type} (exec : Syscall → W → Reply × W)
    (data : enc_state) (path : CStr) (ts0 ts1 : timespec) (p : Proc W)
    (hfit : data.rootdir.length + path.length < PATH_MAX)
    (h0 : 0 ≤ ts0.tv_nsec ∧ ts0.tv_nsec ≤ 999999999)
    (h1 : 0 ≤ ts1.tv_nsec ∧ ts1.tv_nsec ≤ 999999999) :
    ∃ r tv0 tv1 rep, enc_utimens exec data path ts0 ts1 p = some r
      ∧ r.proc.trace = p.trace ++ [(.utimes (data.rootdir ++ path) tv0 tv1, rep)]
      ∧ tv0.tv_sec = ts0.tv_sec ∧ tv1.tv_sec = ts1.tv_sec
      ∧ tv0.tv_usec * 1000 ≤ ts0.tv_nsec ∧ ts0.tv_nsec < tv0.tv_usec * 1000 + 1000
      ∧ tv1.tv_usec * 1000 ≤ ts1.tv_nsec ∧ ts1.tv_nsec < tv1.tv_usec * 1000 + 1000
      ∧ (tv0.tv_usec * 1000 = ts0.tv_nsec ↔ ts0.tv_nsec % 1000 = 0)
      ∧ (tv1.tv_usec * 1000 = ts1.tv_nsec ↔ ts1.tv_nsec % 1000 = 0) := by
  obtain ⟨a1, a2, a3, a4⟩ := utimens_tv_bounds ts0 h0.1
  obtain ⟨b1, b2, b3, b4⟩ := utimens_tv_bounds ts1 h1.1
  refine ⟨finish (call exec
      (.utimes (data.rootdir ++ path) (utimens_tv ts0) (utimens_tv ts1)) p),
    utimens_tv ts0, utimens_tv ts1,
    (exec (.utimes (data.rootdir ++ path) (utimens_tv ts0) (utimens_tv ts1)) p.world).1,
    ?_, ?_, a1, b1, a2, a3, b2, b3, a4, b4⟩
  · simp only [enc_utimens, fpath_of_eq data path hfit, Option.map_some']
  · simp only [finish, call]
    split <;> rfl

/-! ## File content -/

theorem toInt32_of_lt (n : Nat) (h : n < 2 ^ 31) : toInt32 (n : Int) = (n : Int) := by
  unfold toInt32
  have h2 : (n : Int) < 2147483648 := by exact_mod_cast h
  norm_num
  omega

theorem slice_length (bytes : List Char) (offset count : Nat) :
    (slice bytes offset count).length = min count (bytes.length - offset) := by
  simp [slice, List.length_take]

theorem enc_read_vault (data : enc_state) (path : CStr) (size offset : Nat) (p : Proc Vault)
    (f : Inode) (hfit : data.rootdir.length + path.length < PATH_MAX)
    (hfile : p.world.files (data.rootdir ++ path) = some f) (hsize : size < 2 ^ 31) :
    ∃ r, enc_read vault_exec data path size offset p = some r
      ∧ r.ret = (slice f.content offset size).length
      ∧ r.out = slice f.content offset size
      ∧ r.proc.world.files = p.world.files := by
  have hl := slice_length f.content offset size
  have ht := toInt32_of_lt (slice f.content offset size).length (by omega)
  have hoff : ¬ ((offset : Int) < 0) := by omega
  have hne : ¬ (((slice f.content offset size).length : Int) = -1) := by omega
  simp [enc_read, fpath_of_eq data path hfit, call, vault_exec, hfile, Reply.ret, Reply.data,
    O_RDONLY, O_ACCMODE, O_WRONLY, hoff, ht, hne]

theorem enc_write_vault (data : enc_state) (path : CStr) (buf : List Char) (size offset : Nat)
    (p : Proc Vault) (f : Inode) (hfit : data.rootdir.length + path.length < PATH_MAX)
    (hfile : p.world.files (data.rootdir ++ path) = some f) (hsize : size < 2 ^ 31) :
    ∃ r, enc_write vault_exec data path buf size offset p = some r
      ∧ r.ret = (buf.take size).length
      ∧ r.proc.world.files = Function.update p.world.files (data.rootdir ++ path)
          (some ⟨splice f.content offset (buf.take size), f.xattrs⟩) := by
  have hl : (buf.take size).length ≤ size := by simp [List.length_take]
  have ht := toInt32_of_lt (buf.take size).length (by omega)
  have hoff : ¬ ((offset : Int) < 0) := by omega
  have hne : ¬ (((buf.take size).length : Int) = -1) := by omega
  simp only [List.length_take, Nat.cast_min] at ht hne
  simp [enc_write, fpath_of_eq data path hfit, call, vault_exec, hfile, Reply.ret, Reply.data,
    O_RDONLY, O_ACCMODE, O_WRONLY, hoff, ht, hne, set_file]

theorem slice_splice_zero (old bytes : List Char) (i n : Nat) (h : i + n ≤ bytes.length) :
    slice (splice old 0 bytes) i n = slice bytes i n := by
  unfold splice
  split
  · next hb =>
    subst hb
    have hn : n = 0 := by
      simp only [List.length_nil, Nat.le_zero_eq] at h
      omega
    simp [slice, hn]
  · simp only [slice, List.take_zero, List.nil_append, Nat.zero_add]
    rw [List.drop_append_of_le_length (by omega), List.take_append_of_le_length]
    simp [List.length_drop]
    omega

/-- The reversing cipher meets the round-trip contract of section 4.3. -/
theorem reverse_cipher_round_trip (x : List Char) (k : CStr) :
    reverse_cipher.decrypt (reverse_cipher.encrypt x k) k = x := by
  simp [reverse_cipher]

/-- C1, as stated, fails: the file `/vault/f` carries the marker `user.enc` with
value `true` and stores the bytes `abc`; `enc_read` of 3 bytes at offset 0
returns 3 and the stored bytes `abc`, while the slice of the decrypted content
is `cba` under the reversing cipher. -/
theorem enc_read_ignores_marker :
    marker ⟨"abc".toList, [(ENC_XATTR, "true".toList)]⟩ = true
    ∧ (enc_read vault_exec ⟨"k".toList, "/vault".toList⟩ "/f".toList 3 0
        (start (vault_with "/vault/f".toList ⟨"abc".toList, [(ENC_XATTR, "true".toList)]⟩
          "/vault".toList []))).map (fun r => (r.ret, r.out))
      = some (3, "abc".toList)
    ∧ spec_read reverse_cipher "k".toList ⟨"abc".toList, [(ENC_XATTR, "true".toList)]⟩ 0 3
      = "cba".toList
    ∧ slice (reverse_cipher.decrypt "abc".toList "k".toList) 0 3 ≠ "abc".toList := by
  decide

/-- C1, amended: for every vault file, whatever its marker, every key, offset
and length below 2^31: `enc_read` returns the slice `[offset, offset+length)`
of the stored bytes themselves, with no decryption, and its return value is the
length of that slice, `min length (stored length - offset)`: shorter or empty
when `offset+length` exceeds the stored length.  The stored files are left
unchanged and the key is not used. -/
theorem enc_read_returns_stored (data : enc_state) (path : CStr) (size offset : Nat)
    (p : Proc Vault) (f : Inode) (hfit : data.rootdir.length + path.length < PATH_MAX)
    (hfile : p.world.files (data.rootdir ++ path) = some f) (hsize : size < 2 ^ 31) :
    ∃ r, enc_read vault_exec data path size offset p = some r
      ∧ r.out = slice f.content offset size
      ∧ r.ret = min size (f.content.length - offset)
      ∧ r.proc.world.files = p.world.files
      ∧ ∀ key : CStr, enc_read vault_exec ⟨key, data.rootdir⟩ path size offset p = some r := by
  obtain ⟨r, h1, h2, h3, h4⟩ := enc_read_vault data path size offset p f hfit hfile hsize
  refine ⟨r, h1, h3, ?_, h4, ?_⟩
  · rw [h2, slice_length]
  · intro key
    rw [← h1]
    rfl

/-- C2, as stated, fails: the file `/vault/f` carries the marker with value
`true` and stores `abc`; after `enc_write` of the byte `X` at offset 0 returns
1 the marker is still `true` and the file stores `Xbc`, whose decryption under
the reversing cipher is `cbX`, while the previous plaintext `cba` with `X`
spliced in at offset 0 is `Xba`. -/
theorem enc_write_ignores_marker :
    (enc_write vault_exec ⟨"k".toList, "/vault".toList⟩ "/f".toList "X".toList 1 0
        (start (vault_with "/vault/f".toList ⟨"abc".toList, [(ENC_XATTR, "true".toList)]⟩
          "/vault".toList []))).map (fun r => (r.ret, r.proc.world.files "/vault/f".toList))
      = some (1, some ⟨"Xbc".toList, [(ENC_XATTR, "true".toList)]⟩)
    ∧ marker ⟨"Xbc".toList, [(ENC_XATTR, "true".toList)]⟩ = true
    ∧ reverse_cipher.decrypt "Xbc".toList "k".toList = "cbX".toList
    ∧ splice (reverse_cipher.decrypt "abc".toList "k".toList) 0 "X".toList = "Xba".toList
    ∧ spec_write reverse_cipher "k".toList ⟨"abc".toList, [(ENC_XATTR, "true".toList)]⟩ 0
        "X".toList = "abX".toList := by
  decide

/-- C2, amended: for every vault file, whatever its marker, every offset and
data of fewer than 2^31 bytes: `enc_write` returns the number of bytes written,
and afterwards the attributes of the file, the marker among them, are unchanged
and the stored bytes are the previous stored bytes with the data spliced in at
the offset (extended, with the gap filled with NUL bytes, when the offset is
past the old length); no encryption or decryption is applied, and every other
file is unchanged. -/
theorem enc_write_splices_stored (data : enc_state) (path : CStr) (buf : List Char)
    (size offset : Nat) (p : Proc Vault) (f : Inode)
    (hfit : data.rootdir.length + path.length < PATH_MAX)
    (hfile : p.world.files (data.rootdir ++ path) = some f) (hsize : size < 2 ^ 31) :
    ∃ r g, enc_write vault_exec data path buf size offset p = some r
      ∧ r.ret = (buf.take size).length
      ∧ r.proc.world.files (data.rootdir ++ path) = some g
      ∧ g.content = splice f.content offset (buf.take size)
      ∧ g.xattrs = f.xattrs
      ∧ marker g = marker f
      ∧ ∀ q, q ≠ data.rootdir ++ path → r.proc.world.files q = p.world.files q := by
  obtain ⟨r, h1, h2, h3⟩ := enc_write_vault data path buf size offset p f hfit hfile hsize
  refine ⟨r, ⟨splice f.content offset (buf.take size), f.xattrs⟩, h1, h2, ?_, rfl, rfl, rfl, ?_⟩
  · rw [h3, Function.update_same]
  · intro q hq
    rw [h3, Function.update_noteq hq]

/-- C7: for every existing vault file, every byte string `bytes` (shorter than
2^31 bytes) and every `i`, `n` with `i + n <= length bytes`: `enc_write` of
`bytes` at offset 0 succeeds, returning the length, and after it `enc_read` of
`n` bytes at offset `i` returns `n` and the bytes `bytes[i .. i+n)`. -/
theorem write_then_read (data : enc_state) (path : CStr) (bytes : List Char) (i n : Nat)
    (p : Proc Vault) (f : Inode) (hfit : data.rootdir.length + path.length < PATH_MAX)
    (hfile : p.world.files (data.rootdir ++ path) = some f)
    (hin : i + n ≤ bytes.length) (hlen : bytes.length < 2 ^ 31) :
    ∃ w r, enc_write vault_exec data path bytes bytes.length 0 p = some w
      ∧ w.ret = bytes.length
      ∧ enc_read vault_exec data path n i w.proc = some r
      ∧ r.ret = n
      ∧ r.out = slice bytes i n
      ∧ r.out.length = n := by
  obtain ⟨w, h1, h2, h3⟩ :=
    enc_write_vault data path bytes bytes.length 0 p f hfit hfile hlen
  rw [List.take_length] at h2 h3
  have hfile2 : w.proc.world.files (data.rootdir ++ path)
      = some ⟨splice f.content 0 bytes, f.xattrs⟩ := by
    rw [h3, Function.update_same]
  obtain ⟨r, k1, k2, k3, _⟩ :=
    enc_read_vault data path n i w.proc _ hfit hfile2 (by omega)
  have hs : slice (splice f.content 0 bytes) i n = slice bytes i n :=
    slice_splice_zero f.content bytes i n hin
  simp only [hs] at k2 k3
  have hl : (slice bytes i n).length = n := by
    rw [slice_length]
    omega
  refine ⟨w, r, h1, h2, k1, ?_, k3, ?_⟩
  · rw [k2, hl]
  · rw [k3, hl]

/-- The witness of the specification for C7: `hello world` written at offset 0
of the file `/vault/f`, then 5 bytes read at offset 6. -/
theorem write_then_read_witness :
    ∃ w r, enc_write vault_exec ⟨"k".toList, "/vault".toList⟩ "/f".toList
        "hello world".toList "hello world".toList.length 0
        (start (vault_with "/vault/f".toList ⟨[], []⟩ "/vault".toList [])) = some w
      ∧ w.ret = "hello world".toList.length
      ∧ enc_read vault_exec ⟨"k".toList, "/vault".toList⟩ "/f".toList 5 6 w.proc = some r
      ∧ r.ret = 5
      ∧ r.out = slice "hello world".toList 6 5
      ∧ r.out.length = 5 :=
  write_then_read ⟨"k".toList, "/vault".toList⟩ "/f".toList "hello world".toList 6 5
    (start (vault_with "/vault/f".toList ⟨[], []⟩ "/vault".toList [])) ⟨[], []⟩
    (by decide) (by decide) (by decide) (by decide)

/-! ## Extended attributes -/

theorem xattr_get_set (xs : List (CStr × List Char)) (n : CStr) (v : List Char) :
    xattr_get (xattr_set xs n v) n = some v := by
  unfold xattr_set
  split
  · next h =>
    induction xs with
    | nil => simp [xattr_get] at h
    | cons kv rest ih =>
      by_cases hk : kv.1 = n
      · simp [xattr_get, List.find?, hk]
      · simp only [xattr_get, List.find?, hk, decide_False, List.map_cons, if_false] at h ih ⊢
        exact ih h
  · next h =>
    induction xs with
    | nil => simp [xattr_get]
    | cons kv rest ih =>
      by_cases hk : kv.1 = n
      · simp [xattr_get, List.find?, hk] at h
      · simp only [xattr_get, List.find?, hk, decide_False, List.cons_append] at h ih ⊢
        exact ih h

theorem xattr_get_remove (xs : List (CStr × List Char)) (n : CStr) :
    xattr_get (xattr_remove xs n) n = none := by
  induction xs with
  | nil => rfl
  | cons kv rest ih =>
    by_cases hk : kv.1 = n
    · simp [xattr_remove, xattr_get, List.filter, hk]
    · simp [xattr_remove, xattr_get, List.filter, List.find?, hk]

theorem xattr_names_contains (xs : List (CStr × List Char)) (n : CStr) (v : List Char)
    (h : xattr_get xs n = some v) :
    ∃ front back, xattr_names xs = front ++ (n ++ [NUL]) ++ back := by
  induction xs with
  | nil => simp [xattr_get] at h
  | cons kv rest ih =>
    by_cases hk : kv.1 = n
    · exact ⟨[], xattr_names rest, by simp [xattr_names, hk]⟩
    · simp only [xattr_get, List.find?, hk, decide_False] at h ih
      obtain ⟨a, b, hab⟩ := ih h
      refine ⟨kv.1 ++ [NUL] ++ a, b, ?_⟩
      simp only [xattr_names, List.map_cons, List.flatten_cons] at hab ⊢
      rw [hab]
      simp

/-- C3, as stated, fails: on the file `/vault/f` that carries the marker
`user.enc` with value `true`, `enc_listxattr` returns the 9 bytes `user.enc`
and NUL, `enc_getxattr` with name `user.enc` returns the 4 bytes `true`,
`enc_setxattr` with name `user.enc` replaces the stored marker by `false`, and
`enc_removexattr` with name `user.enc` removes it. -/
theorem marker_attribute_exposed :
    (enc_listxattr vault_exec ⟨"k".toList, "/vault".toList⟩ "/f".toList 64
        (start (vault_with "/vault/f".toList ⟨"abc".toList, [(ENC_XATTR, "true".toList)]⟩
          "/vault".toList []))).map (fun r => (r.ret, r.out))
      = some (9, ENC_XATTR ++ [NUL])
    ∧ (enc_getxattr vault_exec ⟨"k".toList, "/vault".toList⟩ "/f".toList ENC_XATTR 64
        (start (vault_with "/vault/f".toList ⟨"abc".toList, [(ENC_XATTR, "true".toList)]⟩
          "/vault".toList []))).map (fun r => (r.ret, r.out))
      = some (4, "true".toList)
    ∧ (enc_setxattr vault_exec ⟨"k".toList, "/vault".toList⟩ "/f".toList ENC_XATTR
        "false".toList 5 0
        (start (vault_with "/vault/f".toList ⟨"abc".toList, [(ENC_XATTR, "true".toList)]⟩
          "/vault".toList []))).map (fun r => (r.ret, r.proc.world.files "/vault/f".toList))
      = some (0, some ⟨"abc".toList, [(ENC_XATTR, "false".toList)]⟩)
    ∧ (enc_removexattr vault_exec ⟨"k".toList, "/vault".toList⟩ "/f".toList ENC_XATTR
        (start (vault_with "/vault/f".toList ⟨"abc".toList, [(ENC_XATTR, "true".toList)]⟩
          "/vault".toList []))).map (fun r => (r.ret, r.proc.world.files "/vault/f".toList))
      = some (0, some ⟨"abc".toList, []⟩) := by
  decide

/-- C3, amended: the attribute handlers treat the name `user.enc` like any
other name.  For every vault file that stores the marker with value `val`, and
every buffer size below 2^31 that holds the value and the name list:
`enc_getxattr` with name `user.enc` returns the length of `val` and `val`
itself; the list `enc_listxattr` returns contains `user.enc` followed by NUL;
`enc_setxattr` with name `user.enc` and flags 0 returns 0 and replaces the
stored marker by the given value; `enc_removexattr` with name `user.enc`
returns 0 and removes the stored marker. -/
theorem marker_attribute_passthrough (data : enc_state) (path : CStr) (size : Nat)
    (p : Proc Vault) (f : Inode) (val : List Char)
    (hfit : data.rootdir.length + path.length < PATH_MAX)
    (hfile : p.world.files (data.rootdir ++ path) = some f)
    (hval : xattr_get f.xattrs ENC_XATTR = some val)
    (hpos : 0 < size) (hsize : size < 2 ^ 31)
    (hv : val.length ≤ size) (hn : (xattr_names f.xattrs).length ≤ size) :
    (∃ r, enc_getxattr vault_exec data path ENC_XATTR size p = some r
        ∧ r.ret = val.length ∧ r.out = val)
    ∧ (∃ r front back, enc_listxattr vault_exec data path size p = some r
        ∧ r.ret = (xattr_names f.xattrs).length
        ∧ r.out = front ++ (ENC_XATTR ++ [NUL]) ++ back)
    ∧ (∀ value : List Char, ∃ r g,
        enc_setxattr vault_exec data path ENC_XATTR value value.length 0 p = some r
        ∧ r.ret = 0
        ∧ r.proc.world.files (data.rootdir ++ path) = some g
        ∧ xattr_get g.xattrs ENC_XATTR = some value)
    ∧ (∃ r g, enc_removexattr vault_exec data path ENC_XATTR p = some r
        ∧ r.ret = 0
        ∧ r.proc.world.files (data.rootdir ++ path) = some g
        ∧ xattr_get g.xattrs ENC_XATTR = none) := by
  have hs0 : size ≠ 0 := by omega
  have hv2 : ¬ size < val.length := by omega
  have hn2 : ¬ size < (xattr_names f.xattrs).length := by omega
  have tv := toInt32_of_lt val.length (by omega)
  have tn := toInt32_of_lt (xattr_names f.xattrs).length (by omega)
  have nv : ¬ ((val.length : Int) = -1) := by omega
  have nn : ¬ (((xattr_names f.xattrs).length : Int) = -1) := by omega
  refine ⟨?_, ?_, ?_, ?_⟩
  · simp [enc_getxattr, fpath_of_eq data path hfit, finish_size, call, vault_exec, hfile, hval,
      sized_reply, hs0, hv2, Reply.ret, Reply.data, tv, nv]
  · obtain ⟨a, b, hab⟩ := xattr_names_contains f.xattrs ENC_XATTR val hval
    refine ⟨finish_size (call vault_exec (.llistxattr (data.rootdir ++ path) size) p),
      a, b, ?_, ?_, ?_⟩
    · simp only [enc_listxattr, fpath_of_eq data path hfit, Option.map_some']
    · simp [finish_size, call, vault_exec, hfile, sized_reply, hs0, hn2, Reply.ret, tn, nn]
    · rw [← hab]
      simp [finish_size, call, vault_exec, hfile, sized_reply, hs0, hn2, Reply.ret, Reply.data,
        tn, nn]
  · intro value
    refine ⟨finish (call vault_exec
        (.lsetxattr (data.rootdir ++ path) ENC_XATTR value value.length 0) p),
      ⟨f.content, xattr_set f.xattrs ENC_XATTR value⟩, ?_, ?_, ?_, ?_⟩
    · simp only [enc_setxattr, fpath_of_eq data path hfit, Option.map_some']
    · simp [finish, call, vault_exec, hfile, Reply.ret, XATTR_CREATE, XATTR_REPLACE]
    · simp [finish, call, vault_exec, hfile, Reply.ret, XATTR_CREATE, XATTR_REPLACE, set_file]
    · exact xattr_get_set f.xattrs ENC_XATTR value
  · refine ⟨finish (call vault_exec (.lremovexattr (data.rootdir ++ path) ENC_XATTR) p),
      ⟨f.content, xattr_remove f.xattrs ENC_XATTR⟩, ?_, ?_, ?_, ?_⟩
    · simp only [enc_removexattr, fpath_of_eq data path hfit, Option.map_some']
    · simp [finish, call, vault_exec, hfile, hval, Reply.ret]
    · simp [finish, call, vault_exec, hfile, hval, Reply.ret, set_file]
    · exact xattr_get_remove f.xattrs ENC_XATTR

theorem marker_attribute_passthrough_witness :
    (∃ r, enc_getxattr vault_exec ⟨"k".toList, "/vault".toList⟩ "/f".toList ENC_XATTR 64
          (start (vault_with "/vault/f".toList ⟨"abc".toList, [(ENC_XATTR, "true".toList)]⟩
            "/vault".toList [])) = some r
        ∧ r.ret = "true".toList.length ∧ r.out = "true".toList)
    ∧ (∃ r front back, enc_listxattr vault_exec ⟨"k".toList, "/vault".toList⟩ "/f".toList 64
          (start (vault_with "/vault/f".toList ⟨"abc".toList, [(ENC_XATTR, "true".toList)]⟩
            "/vault".toList [])) = some r
        ∧ r.ret = (xattr_names [(ENC_XATTR, "true".toList)]).length
        ∧ r.out = front ++ (ENC_XATTR ++ [NUL]) ++ back)
    ∧ (∀ value : List Char, ∃ r g,
        enc_setxattr vault_exec ⟨"k".toList, "/vault".toList⟩ "/f".toList ENC_XATTR value
          value.length 0
          (start (vault_with "/vault/f".toList ⟨"abc".toList, [(ENC_XATTR, "true".toList)]⟩
            "/vault".toList [])) = some r
        ∧ r.ret = 0
        ∧ r.proc.world.files ("/vault".toList ++ "/f".toList) = some g
        ∧ xattr_get g.xattrs ENC_XATTR = some value)
    ∧ (∃ r g, enc_removexattr vault_exec ⟨"k".toList, "/vault".toList⟩ "/f".toList ENC_XATTR
          (start (vault_with "/vault/f".toList ⟨"abc".toList, [(ENC_XATTR, "true".toList)]⟩
            "/vault".toList [])) = some r
        ∧ r.ret = 0
        ∧ r.proc.world.files ("/vault".toList ++ "/f".toList) = some g
        ∧ xattr_get g.xattrs ENC_XATTR = none) :=
  marker_attribute_passthrough ⟨"k".toList, "/vault".toList⟩ "/f".toList 64
    (start (vault_with "/vault/f".toList ⟨"abc".toList, [(ENC_XATTR, "true".toList)]⟩
      "/vault".toList []))
    ⟨"abc".toList, [(ENC_XATTR, "true".toList)]⟩ "true".toList
    (by decide) (by decide) (by decide) (by decide) (by decide) (by decide) (by decide)

/-! ## Directory listing -/

theorem readdir_loop_vault (dp : Int) (es : List dirent) :
    ∀ (fuel : Nat) (buf : List (CStr × stat)) (p : Proc Vault),
      p.world.streams dp = some es → es.length < fuel →
      ∃ p2, enc_readdir_loop vault_exec accept_all dp fuel buf p
          = some (buf ++ es.map fill_entry, p2)
        ∧ p2.world.streams dp = some [] := by
  induction es with
  | nil =>
    intro fuel buf p hs hf
    cases fuel with
    | zero => omega
    | succ k =>
      refine ⟨(call vault_exec (.readdir dp) p).2, ?_, ?_⟩
      · simp [enc_readdir_loop, call, vault_exec, hs]
      · simp [call, vault_exec, hs]
  | cons e rest ih =>
    intro fuel buf p hs hf
    cases fuel with
    | zero => omega
    | succ k =>
      have hk : rest.length < k := by
        simp only [List.length_cons] at hf
        omega
      obtain ⟨p2, h1, h2⟩ := ih k (buf ++ [fill_entry e]) (call vault_exec (.readdir dp) p).2
        (by simp [call, vault_exec, hs]) hk
      refine ⟨p2, ?_, h2⟩
      rw [enc_readdir_loop]
      simp only [call, vault_exec, hs, accept_all, ne_eq, not_true_eq_false, if_false]
      simp only [call, vault_exec, hs, fill_entry] at h1
      rw [h1]
      simp [fill_entry]

/-- C9: for every vault directory holding the entries `es`, `enc_readdir`, given
a filler that accepts every entry and at least one loop iteration more than
there are entries, returns 0 and has passed to the filler exactly the entries
of `es`, in order and each once, with the name and the inode number of the
entry and with `st_mode = d_type << 12`, which for the types `DT_FIFO`,
`DT_CHR`, `DT_DIR`, `DT_BLK`, `DT_REG`, `DT_LNK` and `DT_SOCK` is the file-type
constant `S_IFIFO`, `S_IFCHR`, `S_IFDIR`, `S_IFBLK`, `S_IFREG`, `S_IFLNK` and
`S_IFSOCK`. -/
theorem enc_readdir_lists_entries (data : enc_state) (path : CStr) (es : List dirent)
    (fuel : Nat) (p : Proc Vault) (hfit : data.rootdir.length + path.length < PATH_MAX)
    (hdir : p.world.dirs (data.rootdir ++ path) = some es) (hfuel : es.length < fuel) :
    ∃ out p2, enc_readdir vault_exec data fuel path [] accept_all p = some (0, out, p2)
      ∧ out.length = es.length
      ∧ out.map Prod.fst = es.map dirent.d_name
      ∧ out.map (fun o => o.2.st_ino) = es.map dirent.d_ino
      ∧ out.map (fun o => o.2.st_mode) = es.map (fun e => e.d_type <<< 12)
      ∧ ∀ i (hi : i < es.length) (ho : i < out.length) (m : Nat),
          type_bits (es.get ⟨i, hi⟩).d_type = some m →
          (out.get ⟨i, ho⟩).2.st_mode = m ∧ m &&& S_IFMT = m := by
  obtain ⟨p2, h1, h2⟩ := readdir_loop_vault (p.world.next : Int) es fuel []
    (call vault_exec (.opendir (data.rootdir ++ path)) p).2
    (by simp [call, vault_exec, hdir]) hfuel
  refine ⟨es.map fill_entry, (call vault_exec (.closedir (p.world.next : Int)) p2).2,
    ?_, ?_, ?_, ?_, ?_, ?_⟩
  · simp only [enc_readdir, fpath_of_eq data path hfit]
    simp only [call, vault_exec, hdir] at h1 ⊢
    simp only [List.nil_append] at h1
    rw [h1]
  · simp
  · simp [fill_entry]
  · simp [fill_entry]
  · simp [fill_entry]
  · intro i hi ho m hm
    simp only [List.get_eq_getElem, List.getElem_map, fill_entry]
    generalize (es[i]).d_type = t at hm
    unfold type_bits at hm
    split_ifs at hm with c1 c2 c3 c4 c5 c6 c7 <;>
      simp only [Option.some.injEq] at hm <;> subst hm <;> subst_vars <;> decide

theorem enc_readdir_lists_entries_witness :
    ∃ out p2, enc_readdir vault_exec ⟨"k".toList, "/vault".toList⟩ 4 "/".toList [] accept_all
        (start (vault_with "/vault/f".toList ⟨[], []⟩ "/vault/".toList
          [⟨2, DT_DIR, ".".toList⟩, ⟨1, DT_DIR, "..".toList⟩, ⟨7, DT_REG, "f".toList⟩]))
        = some (0, out, p2)
      ∧ out.length
        = [(⟨2, DT_DIR, ".".toList⟩ : dirent), ⟨1, DT_DIR, "..".toList⟩,
            ⟨7, DT_REG, "f".toList⟩].length
      ∧ out.map Prod.fst
        = [(⟨2, DT_DIR, ".".toList⟩ : dirent), ⟨1, DT_DIR, "..".toList⟩,
            ⟨7, DT_REG, "f".toList⟩].map dirent.d_name
      ∧ out.map (fun o => o.2.st_ino)
        = [(⟨2, DT_DIR, ".".toList⟩ : dirent), ⟨1, DT_DIR, "..".toList⟩,
            ⟨7, DT_REG, "f".toList⟩].map dirent.d_ino
      ∧ out.map (fun o => o.2.st_mode)
        = [(⟨2, DT_DIR, ".".toList⟩ : dirent), ⟨1, DT_DIR, "..".toList⟩,
            ⟨7, DT_REG, "f".toList⟩].map (fun e => e.d_type <<< 12)
      ∧ ∀ i (hi : i < [(⟨2, DT_DIR, ".".toList⟩ : dirent), ⟨1, DT_DIR, "..".toList⟩,
            ⟨7, DT_REG, "f".toList⟩].length) (ho : i < out.length) (m : Nat),
          type_bits ([(⟨2, DT_DIR, ".".toList⟩ : dirent), ⟨1, DT_DIR, "..".toList⟩,
            ⟨7, DT_REG, "f".toList⟩].get ⟨i, hi⟩).d_type = some m →
          (out.get ⟨i, ho⟩).2.st_mode = m ∧ m &&& S_IFMT = m :=
  enc_readdir_lists_entries ⟨"k".toList, "/vault".toList⟩ "/".toList
    [⟨2, DT_DIR, ".".toList⟩, ⟨1, DT_DIR, "..".toList⟩, ⟨7, DT_REG, "f".toList⟩] 4
    (start (vault_with "/vault/f".toList ⟨[], []⟩ "/vault/".toList
      [⟨2, DT_DIR, ".".toList⟩, ⟨1, DT_DIR, "..".toList⟩, ⟨7, DT_REG, "f".toList⟩]))
    (by decide) (by decide) (by decide)

/-! ## Error codes -/

theorem reports_finish {W B : Type} (req : Request B) (exec : Syscall → W → Reply × W)
    (c : Syscall) (p : Proc W) (hp : p.trace = []) (ht : tested req c = true) :
    reports req (finish (call exec c p)).ret (finish (call exec c p)).proc.trace := by
  intro hr
  have htr : (finish (call exec c p)).proc.trace = [(c, (exec c p.world).1)] := by
    simp only [finish, call, hp]
    split <;> rfl
  rw [htr] at hr ⊢
  have hin := hr c _ (List.mem_singleton.mpr rfl)
  cases hx : (exec c p.world).1 with
  | ok v d ent =>
    rw [hx] at hin
    have hv : v ≠ -1 := by
      have := hin.1
      omega
    have hret : (finish (call exec c p)).ret = 0 := by
      simp [finish, call, hx, Reply.ret, hv]
    rw [hret]
    refine ⟨?_, fun _ => Or.inl rfl⟩
    intro c2 e hm _
    simp at hm
  | fail e0 =>
    have hret : (finish (call exec c p)).ret = -e0 := by
      simp [finish, call, hx, Reply.ret]
    rw [hret]
    refine ⟨?_, ?_⟩
    · intro c2 e hm _
      simp only [List.mem_singleton, Prod.mk.injEq, Reply.fail.injEq] at hm
      rw [hm.2]
    · intro h
      have := h c e0 (List.mem_singleton.mpr rfl)
      rw [ht] at this
      exact absurd this (by decide)

theorem reports_finish_size {W B : Type} (req : Request B) (exec : Syscall → W → Reply × W)
    (c : Syscall) (p : Proc W) (hp : p.trace = []) (ht : tested req c = true)
    (hc : counts c = true) :
    reports req (finish_size (call exec c p)).ret (finish_size (call exec c p)).proc.trace := by
  intro hr
  have htr : (finish_size (call exec c p)).proc.trace = [(c, (exec c p.world).1)] := by
    simp only [finish_size, call, hp]
    split <;> rfl
  rw [htr] at hr ⊢
  have hin := hr c _ (List.mem_singleton.mpr rfl)
  cases hx : (exec c p.world).1 with
  | ok v d ent =>
    rw [hx] at hin
    obtain ⟨h0, h1⟩ := hin
    have hv : toInt32 v = v := by
      unfold toInt32
      norm_num at h1 ⊢
      omega
    have hne : v ≠ -1 := by omega
    have hret : (finish_size (call exec c p)).ret = v := by
      simp [finish_size, call, hx, Reply.ret, hv, hne]
    rw [hret]
    refine ⟨?_, fun _ => Or.inr ⟨c, v, d, ent, List.mem_singleton.mpr rfl, hc, rfl, h0⟩⟩
    intro c2 e hm _
    simp at hm
  | fail e0 =>
    have hret : (finish_size (call exec c p)).ret = -e0 := by
      simp [finish_size, call, hx, Reply.ret, toInt32]
    rw [hret]
    refine ⟨?_, ?_⟩
    · intro c2 e hm _
      simp only [List.mem_singleton, Prod.mk.injEq, Reply.fail.injEq] at hm
      rw [hm.2]
    · intro h
      have := h c e0 (List.mem_singleton.mpr rfl)
      rw [ht] at this
      exact absurd this (by decide)

theorem toInt32_in_range (v : Int) (h0 : 0 ≤ v) (h1 : v < 2 ^ 31) : toInt32 v = v := by
  unfold toInt32
  norm_num at h1 ⊢
  omega

theorem reports_readlink {W B : Type} (exec : Syscall → W → Reply × W) (data : enc_state)
    (path : CStr) (size : Nat) (p : Proc W) (x : Ret W) (hp : p.trace = [])
    (h : enc_readlink exec data path size p = some x) :
    reports (Request.readlink path size : Request B) x.ret x.proc.trace := by
  unfold enc_readlink at h
  cases hf : fpath_of data path with
  | none => simp [hf] at h
  | some fpath =>
    simp only [hf, Option.map_some', Option.some.injEq] at h
    subst h
    intro hr
    cases hx : (exec (.readlink fpath (size_pred size)) p.world).1 with
    | fail e0 =>
      simp [call, hx, Reply.ret, hp, tested, toInt32] at hr ⊢
    | ok v d ent =>
      have hin : in_range (.ok v d ent) :=
        hr (.readlink fpath (size_pred size)) (.ok v d ent) (by
          simp only [call, hx, hp, Reply.ret]
          split <;> simp)
      obtain ⟨h0, h1⟩ := hin
      have hv := toInt32_in_range v h0 h1
      have hne : v ≠ -1 := by omega
      simp [call, hx, Reply.ret, hp, tested, hv, hne] at hr ⊢

theorem reports_open {W B : Type} (exec : Syscall → W → Reply × W) (data : enc_state)
    (path : CStr) (flags : Nat) (p : Proc W) (x : Ret W) (hp : p.trace = [])
    (h : enc_open exec data path flags p = some x) :
    reports (Request.open_file path flags : Request B) x.ret x.proc.trace := by
  unfold enc_open at h
  cases hf : fpath_of data path with
  | none => simp [hf] at h
  | some fpath =>
    simp only [hf, Option.map_some', Option.some.injEq] at h
    subst h
    intro hr
    cases hx : (exec (.open2 fpath flags) p.world).1 with
    | fail e0 =>
      simp [call, hx, Reply.ret, hp, tested] at hr ⊢
    | ok v d ent =>
      by_cases hv : v = -1
      · subst hv
        have := hr (.open2 fpath flags) (.ok (-1) d ent) (by simp [call, hx, Reply.ret, hp])
        simp [in_range] at this
      · simp [call, hx, Reply.ret, hp, tested, hv] at hr ⊢
        intro c e hc _ ht
        subst hc
        simp at ht

theorem reports_create {W B : Type} (exec : Syscall → W → Reply × W) (data : enc_state)
    (path : CStr) (mode : Nat) (p : Proc W) (x : Ret W) (hp : p.trace = [])
    (h : enc_create exec data path mode p = some x) :
    reports (Request.create path mode : Request B) x.ret x.proc.trace := by
  unfold enc_create at h
  cases hf : fpath_of data path with
  | none => simp [hf] at h
  | some fpath =>
    simp only [hf, Option.map_some', Option.some.injEq] at h
    subst h
    intro hr
    cases hx : (exec (.creat fpath mode) p.world).1 with
    | fail e0 =>
      simp [call, hx, Reply.ret, hp, tested] at hr ⊢
    | ok v d ent =>
      by_cases hv : v = -1
      · subst hv
        have := hr (.creat fpath mode) (.ok (-1) d ent) (by simp [call, hx, Reply.ret, hp])
        simp [in_range] at this
      · simp [call, hx, Reply.ret, hp, tested, hv] at hr ⊢
        intro c e hc _ ht
        subst hc
        simp at ht

theorem reports_read {W B : Type} (exec : Syscall → W → Reply × W) (data : enc_state)
    (path : CStr) (size : Nat) (offset : Int) (p : Proc W) (x : Ret W) (hp : p.trace = [])
    (h : enc_read exec data path size offset p = some x) :
    reports (Request.read path size offset : Request B) x.ret x.proc.trace := by
  unfold enc_read at h
  cases hf : fpath_of data path with
  | none => simp [hf] at h
  | some fpath =>
    simp only [hf, Option.map_some', Option.some.injEq] at h
    subst h
    intro hr
    cases hx : (exec (.open2 fpath O_RDONLY) p.world).1 with
    | fail e0 =>
      simp [call, hx, Reply.ret, hp, tested] at hr ⊢
    | ok v d ent =>
      by_cases hv : v = -1
      · subst hv
        have := hr (.open2 fpath O_RDONLY) (.ok (-1) d ent) (by simp [call, hx, Reply.ret, hp])
        simp [in_range] at this
      · cases hy : (exec (.pread v size offset) (exec (.open2 fpath O_RDONLY) p.world).2).1 with
        | fail e1 =>
          simp [call, hx, hy, Reply.ret, hp, tested, hv, toInt32] at hr ⊢
          refine ⟨?_, ?_⟩
          · rintro c e (⟨rfl, rfl⟩ | ⟨rfl, _⟩) ht
            · rfl
            · simp at ht
          · intro hall
            have := hall _ e1 (Or.inl ⟨rfl, rfl⟩)
            simp at this
        | ok n d2 ent2 =>
          have hin : in_range (.ok n d2 ent2) :=
            hr (.pread v size offset) (.ok n d2 ent2) (by simp [call, hx, hy, hp, Reply.ret, hv])
          obtain ⟨h0, h1⟩ := hin
          have hn := toInt32_in_range n h0 h1
          have hne : n ≠ -1 := by omega
          refine ⟨?_, fun _ => Or.inr ⟨.pread v size offset, n, d2, ent2, ?_, rfl, ?_, h0⟩⟩
          · simp [call, hx, hy, Reply.ret, hp, tested, hv, hn, hne]
            intro c e hc _ ht
            subst hc
            simp at ht
          · simp [call, hx, hy, Reply.ret, hp, hv, hn, hne]
          · simp [call, hx, hy, Reply.ret, hp, hv, hn, hne]

theorem reports_write {W B : Type} (exec : Syscall → W → Reply × W) (data : enc_state)
    (path : CStr) (buf : List Char) (size : Nat) (offset : Int) (p : Proc W) (x : Ret W) (hp : p.trace = [])
    (h : enc_write exec data path buf size offset p = some x) :
    reports (Request.write path buf size offset : Request B) x.ret x.proc.trace := by
  unfold enc_write at h
  cases hf : fpath_of data path with
  | none => simp [hf] at h
  | some fpath =>
    simp only [hf, Option.map_some', Option.some.injEq] at h
    subst h
    intro hr
    cases hx : (exec (.open2 fpath O_WRONLY) p.world).1 with
    | fail e0 =>
      simp [call, hx, Reply.ret, hp, tested] at hr ⊢
    | ok v d ent =>
      by_cases hv : v = -1
      · subst hv
        have := hr (.open2 fpath O_WRONLY) (.ok (-1) d ent) (by simp [call, hx, Reply.ret, hp])
        simp [in_range] at this
      · cases hy : (exec (.pwrite v buf size offset) (exec (.open2 fpath O_WRONLY) p.world).2).1 with
        | fail e1 =>
          simp [call, hx, hy, Reply.ret, hp, tested, hv, toInt32] at hr ⊢
          refine ⟨?_, ?_⟩
          · rintro c e (⟨rfl, rfl⟩ | ⟨rfl, _⟩) ht
            · rfl
            · simp at ht
          · intro hall
            have := hall _ e1 (Or.inl ⟨rfl, rfl⟩)
            simp at this
        | ok n d2 ent2 =>
          have hin : in_range (.ok n d2 ent2) :=
            hr (.pwrite v buf size offset) (.ok n d2 ent2) (by simp [call, hx, hy, hp, Reply.ret, hv])
          obtain ⟨h0, h1⟩ := hin
          have hn := toInt32_in_range n h0 h1
          have hne : n ≠ -1 := by omega
          refine ⟨?_, fun _ => Or.inr ⟨.pwrite v buf size offset, n, d2, ent2, ?_, rfl, ?_, h0⟩⟩
          · simp [call, hx, hy, Reply.ret, hp, tested, hv, hn, hne]
            intro c e hc _ ht
            subst hc
            simp at ht
          · simp [call, hx, hy, Reply.ret, hp, hv, hn, hne]
          · simp [call, hx, hy, Reply.ret, hp, hv, hn, hne]


theorem reports_mknod {W B : Type} (exec : Syscall → W → Reply × W) (data : enc_state)
    (path : CStr) (mode rdev : Nat) (p : Proc W) (x : Ret W) (hp : p.trace = [])
    (h : enc_mknod exec data path mode rdev p = some x) :
    reports (Request.mknod path mode rdev : Request B) x.ret x.proc.trace := by
  unfold enc_mknod at h
  cases hf : fpath_of data path with
  | none => simp [hf] at h
  | some fpath =>
    simp only [hf, Option.map_some', Option.some.injEq] at h
    subst h
    split
    · intro hr
      cases hx : (exec (.open3 fpath (O_CREAT ||| O_EXCL ||| O_WRONLY) mode) p.world).1 with
      | fail e0 =>
        simp [call, hx, Reply.ret, hp, tested, finish] at hr ⊢
      | ok v d ent =>
        by_cases hv : 0 ≤ v
        · cases hy : (exec (.close v)
              (exec (.open3 fpath (O_CREAT ||| O_EXCL ||| O_WRONLY) mode) p.world).2).1 with
          | fail e1 =>
            simp [call, hx, hy, Reply.ret, hp, tested, hv, finish] at hr ⊢
          | ok n d2 ent2 =>
            by_cases hn : n = -1
            · subst hn
              have := hr (.close v) (.ok (-1) d2 ent2)
                (by simp [call, hx, hy, Reply.ret, hp, hv, finish])
              simp [in_range] at this
            · simp [call, hx, hy, Reply.ret, hp, tested, hv, hn, finish] at hr ⊢
        · have := hr (.open3 fpath (O_CREAT ||| O_EXCL ||| O_WRONLY) mode) (.ok v d ent) (by
            simp only [call, hx, Reply.ret, hp, hv, finish, if_false]
            split <;> simp)
          exact absurd this.1 hv
    · split
      · exact reports_finish _ exec _ p hp rfl
      · exact reports_finish _ exec _ p hp rfl

theorem readdir_loop_trace {W B : Type} (exec : Syscall → W → Reply × W)
    (filler : B → CStr → stat → Int → Int × B) (dp : Int) :
    ∀ (fuel : Nat) (buf : B) (p : Proc W) (out : B) (p2 : Proc W),
      enc_readdir_loop exec filler dp fuel buf p = some (out, p2) →
      ∃ l, p2.trace = p.trace ++ l ∧ ∀ x ∈ l, x.1 = Syscall.readdir dp := by
  intro fuel
  induction fuel with
  | zero =>
    intro buf p out p2 h
    simp [enc_readdir_loop] at h
  | succ k ih =>
    intro buf p out p2 h
    rw [enc_readdir_loop] at h
    have htr : (call exec (.readdir dp) p).2.trace
        = p.trace ++ [(Syscall.readdir dp, (exec (.readdir dp) p.world).1)] := rfl
    split at h
    · next de _ =>
      dsimp only at h
      split at h
      · simp only [Option.some.injEq, Prod.mk.injEq] at h
        refine ⟨[(Syscall.readdir dp, (exec (.readdir dp) p.world).1)], ?_, ?_⟩
        · rw [← h.2, htr]
        · intro x hx
          rw [List.mem_singleton.mp hx]
      · obtain ⟨l, h1, h2⟩ := ih _ _ _ _ h
        refine ⟨(Syscall.readdir dp, (exec (.readdir dp) p.world).1) :: l, ?_, ?_⟩
        · rw [h1, htr]
          simp
        · intro x hx
          rcases List.mem_cons.mp hx with hx | hx
          · rw [hx]
          · exact h2 x hx
    · simp only [Option.some.injEq, Prod.mk.injEq] at h
      refine ⟨[(Syscall.readdir dp, (exec (.readdir dp) p.world).1)], ?_, ?_⟩
      · rw [← h.2, htr]
      · intro x hx
        rw [List.mem_singleton.mp hx]

theorem reports_readdir {W B : Type} (exec : Syscall → W → Reply × W) (data : enc_state)
    (fuel : Nat) (path : CStr) (buf : B) (filler : B → CStr → stat → Int → Int × B)
    (p : Proc W) (ret : Int) (out : B) (p2 : Proc W) (hp : p.trace = [])
    (h : enc_readdir exec data fuel path buf filler p = some (ret, out, p2)) :
    reports (Request.readdir path buf filler) ret p2.trace := by
  unfold enc_readdir at h
  cases hf : fpath_of data path with
  | none => simp [hf] at h
  | some fpath =>
    simp only [hf] at h
    cases hx : (exec (.opendir fpath) p.world).1 with
    | fail e0 =>
      simp only [call, hx, Option.some.injEq, Prod.mk.injEq] at h
      obtain ⟨h1, _, h3⟩ := h
      subst h1
      subst h3
      intro _
      simp [hp, tested]
    | ok dp d ent =>
      simp only [call, hx] at h
      split at h
      · simp at h
      · next l hl =>
        simp only [Option.some.injEq, Prod.mk.injEq] at h
        obtain ⟨h1, _, h3⟩ := h
        subst h1
        subst h3
        obtain ⟨tr, t1, t2⟩ := readdir_loop_trace exec filler dp fuel buf _ l.1 l.2 hl
        intro _
        refine ⟨?_, fun _ => Or.inl rfl⟩
        intro c e hm ht
        simp only [t1, hp, List.nil_append, List.mem_append, List.mem_singleton,
          Prod.mk.injEq] at hm
        rcases hm with (⟨_, hm⟩ | hm) | ⟨hm, _⟩
        · cases hm
        · have := t2 _ hm
          simp only at this
          subst this
          simp [tested] at ht
        · subst hm
          simp [tested] at ht

theorem reports_mapped {W B : Type} (req : Request B) (exec : Syscall → W → Reply × W)
    (mk : CStr → Syscall) (hmk : ∀ f, tested req (mk f) = true) (o : Option CStr)
    (p : Proc W) (hp : p.trace = []) (x : Ret W)
    (h : o.map (fun fpath => finish (call exec (mk fpath) p)) = some x) :
    reports req x.ret x.proc.trace := by
  cases o with
  | none => simp at h
  | some f =>
    simp only [Option.map_some', Option.some.injEq] at h
    subst h
    exact reports_finish req exec (mk f) p hp (hmk f)

theorem reports_mapped_size {W B : Type} (req : Request B) (exec : Syscall → W → Reply × W)
    (mk : CStr → Syscall) (hmk : ∀ f, tested req (mk f) = true)
    (hck : ∀ f, counts (mk f) = true) (o : Option CStr)
    (p : Proc W) (hp : p.trace = []) (x : Ret W)
    (h : o.map (fun fpath => finish_size (call exec (mk fpath) p)) = some x) :
    reports req x.ret x.proc.trace := by
  cases o with
  | none => simp at h
  | some f =>
    simp only [Option.map_some', Option.some.injEq] at h
    subst h
    exact reports_finish_size req exec (mk f) p hp (hmk f) (hck f)

theorem reports_of_code {W B : Type} (req : Request B) (o : Option (Ret W)) (ret : Int)
    (p2 : Proc W) (h : o.map Ret.code = some (ret, p2))
    (hx : ∀ x, o = some x → reports req x.ret x.proc.trace) :
    reports req ret p2.trace := by
  cases o with
  | none => simp at h
  | some x =>
    simp only [Option.map_some', Option.some.injEq, Ret.code, Prod.mk.injEq] at h
    rw [← h.1, ← h.2]
    exact hx x rfl

theorem enc_oper_reports {W B : Type} (exec : Syscall → W → Reply × W) (data : enc_state)
    (fuel : Nat) (req : Request B) (p : Proc W) (ret : Int) (p2 : Proc W)
    (hp : p.trace = []) (h : enc_oper exec data fuel req p = some (ret, p2)) :
    reports req ret p2.trace := by
  cases req with
  | getattr path =>
    exact reports_of_code _ _ ret p2 h fun x hx =>
      reports_mapped _ exec (fun f => .lstat f) (fun _ => rfl) _ p hp x hx
  | access path mask =>
    exact reports_of_code _ _ ret p2 h fun x hx =>
      reports_mapped _ exec (fun f => .access f mask) (fun _ => rfl) _ p hp x hx
  | readlink path size =>
    exact reports_of_code _ _ ret p2 h fun x hx =>
      reports_readlink exec data path size p x hp hx
  | readdir path buf filler =>
    simp only [enc_oper] at h
    cases hr : enc_readdir exec data fuel path buf filler p with
    | none => simp [hr] at h
    | some r =>
      simp only [hr, Option.map_some', Option.some.injEq, Prod.mk.injEq] at h
      rw [← h.1, ← h.2]
      exact reports_readdir exec data fuel path buf filler p r.1 r.2.1 r.2.2 hp hr
  | mknod path mode rdev =>
    exact reports_of_code _ _ ret p2 h fun x hx =>
      reports_mknod exec data path mode rdev p x hp hx
  | mkdir path mode =>
    exact reports_of_code _ _ ret p2 h fun x hx =>
      reports_mapped _ exec (fun f => .mkdir f mode) (fun _ => rfl) _ p hp x hx
  | symlink src dst =>
    exact reports_of_code _ (enc_symlink exec data src dst p) ret p2 h fun x hx => by
      simp only [enc_symlink, Option.some.injEq] at hx
      subst hx
      exact reports_finish _ exec _ p hp rfl
  | unlink path =>
    exact reports_of_code _ _ ret p2 h fun x hx =>
      reports_mapped _ exec (fun f => .unlink f) (fun _ => rfl) _ p hp x hx
  | rmdir path =>
    exact reports_of_code _ _ ret p2 h fun x hx =>
      reports_mapped _ exec (fun f => .rmdir f) (fun _ => rfl) _ p hp x hx
  | rename src dst =>
    exact reports_of_code _ (enc_rename exec data src dst p) ret p2 h fun x hx => by
      simp only [enc_rename, Option.some.injEq] at hx
      subst hx
      exact reports_finish _ exec _ p hp rfl
  | link src dst =>
    exact reports_of_code _ (enc_link exec data src dst p) ret p2 h fun x hx => by
      simp only [enc_link, Option.some.injEq] at hx
      subst hx
      exact reports_finish _ exec _ p hp rfl
  | chmod path mode =>
    exact reports_of_code _ _ ret p2 h fun x hx =>
      reports_mapped _ exec (fun f => .chmod f mode) (fun _ => rfl) _ p hp x hx
  | chown path uid gid =>
    exact reports_of_code _ _ ret p2 h fun x hx =>
      reports_mapped _ exec (fun f => .lchown f uid gid) (fun _ => rfl) _ p hp x hx
  | truncate path size =>
    exact reports_of_code _ _ ret p2 h fun x hx =>
      reports_mapped _ exec (fun f => .truncate f size) (fun _ => rfl) _ p hp x hx
  | utimens path ts0 ts1 =>
    exact reports_of_code _ _ ret p2 h fun x hx =>
      reports_mapped _ exec (fun f => .utimes f (utimens_tv ts0) (utimens_tv ts1))
        (fun _ => rfl) _ p hp x hx
  | open_file path flags =>
    exact reports_of_code _ _ ret p2 h fun x hx => reports_open exec data path flags p x hp hx
  | read path size offset =>
    exact reports_of_code _ _ ret p2 h fun x hx =>
      reports_read exec data path size offset p x hp hx
  | write path buf size offset =>
    exact reports_of_code _ _ ret p2 h fun x hx =>
      reports_write exec data path buf size offset p x hp hx
  | statfs path =>
    exact reports_of_code _ _ ret p2 h fun x hx =>
      reports_mapped _ exec (fun f => .statvfs f) (fun _ => rfl) _ p hp x hx
  | create path mode =>
    exact reports_of_code _ _ ret p2 h fun x hx => reports_create exec data path mode p x hp hx
  | release path =>
    exact reports_of_code _ (enc_release p) ret p2 h fun x hx => by
      simp only [enc_release, Option.some.injEq] at hx
      subst hx
      intro _
      simp [hp]
  | fsync path isdatasync =>
    exact reports_of_code _ (enc_fsync p) ret p2 h fun x hx => by
      simp only [enc_fsync, Option.some.injEq] at hx
      subst hx
      intro _
      simp [hp]
  | setxattr path name value size flags =>
    exact reports_of_code _ _ ret p2 h fun x hx =>
      reports_mapped _ exec (fun f => .lsetxattr f name value size flags) (fun _ => rfl)
        _ p hp x hx
  | getxattr path name size =>
    exact reports_of_code _ _ ret p2 h fun x hx =>
      reports_mapped_size _ exec (fun f => .lgetxattr f name size) (fun _ => rfl)
        (fun _ => rfl) _ p hp x hx
  | listxattr path size =>
    exact reports_of_code _ _ ret p2 h fun x hx =>
      reports_mapped_size _ exec (fun f => .llistxattr f size) (fun _ => rfl)
        (fun _ => rfl) _ p hp x hx
  | removexattr path name =>
    exact reports_of_code _ _ ret p2 h fun x hx =>
      reports_mapped _ exec (fun f => .lremovexattr f name) (fun _ => rfl) _ p hp x hx

/-- C8, as stated, fails: `opendir` succeeds and `readdir` fails with `errno` 5
(`EIO`), and `enc_readdir` returns 0; `open` succeeds and `close` fails with
`errno` 5, and `enc_open` returns 0. -/
theorem failed_readdir_and_close_return_success :
    (enc_oper script_exec ⟨"k".toList, "/vault".toList⟩ 4
        (Request.readdir "/".toList ([] : List (CStr × stat)) accept_all)
        (scripted [.ok 3 [] none, .fail 5])).map (fun r => (r.1, r.2.trace))
      = some (0, [(.opendir "/vault/".toList, .ok 3 [] none), (.readdir 3, .fail 5),
          (.closedir 3, .ok 0 [] none)])
    ∧ (enc_oper script_exec ⟨"k".toList, "/vault".toList⟩ 4
        (Request.open_file "/f".toList O_RDONLY : Request Unit)
        (scripted [.ok 3 [] none, .fail 5])).map (fun r => (r.1, r.2.trace))
      = some (0, [(.open2 "/vault/f".toList O_RDONLY, .ok 3 [] none), (.close 3, .fail 5)]) := by
  decide


theorem enc_oper_returns {W B : Type} (exec : Syscall → W → Reply × W) (data : enc_state)
    (fuel : Nat) (req : Request B) (p : Proc W) (hfit : fits data req = true)
    (hnr : is_readdir req = false) : ∃ res, enc_oper exec data fuel req p = some res := by
  cases req
  all_goals first
    | (simp only [fits, mapped_path, decide_eq_true_eq] at hfit
       simp only [enc_oper, enc_getattr, enc_access, enc_readlink, enc_mknod, enc_mkdir,
         enc_unlink, enc_rmdir, enc_chmod, enc_chown, enc_truncate,
         enc_utimens, enc_open, enc_read, enc_write, enc_statfs, enc_create,
         enc_setxattr, enc_getxattr, enc_listxattr, enc_removexattr,
         fpath_of_eq _ _ hfit, Option.map_some']
       exact ⟨_, rfl⟩)
    | (simp only [enc_oper, enc_symlink, enc_rename, enc_link, enc_release, enc_fsync,
         Option.map_some']
       exact ⟨_, rfl⟩)
    | (simp [is_readdir] at hnr)

/-- C8, amended: for every handler of `enc_oper`, with the mapped path fitting
in `fpath`, and every outcome of the calls it makes in which each successful
return value lies in `0 .. 2^31-1`: the handler returns (for `enc_readdir`,
once its loop has ended); if a call the handler tests fails with error code `e`
it returns exactly `-e`; if no tested call fails it returns a non-negative
value, which is 0 or the byte count returned by `pread`, `pwrite`, `lgetxattr`
or `llistxattr`.  The tested calls are all calls except `readdir` and
`closedir` in `enc_readdir` and `close` in `enc_open`, `enc_read`, `enc_write`
and `enc_create`, whose failure is not reported. -/
theorem enc_oper_error_codes {W B : Type} (exec : Syscall → W → Reply × W)
    (data : enc_state) (fuel : Nat) (req : Request B) (p : Proc W)
    (hp : p.trace = []) (hfit : fits data req = true) :
    (is_readdir req = false → ∃ res, enc_oper exec data fuel req p = some res)
    ∧ ∀ ret p2, enc_oper exec data fuel req p = some (ret, p2) →
        (∀ c r, (c, r) ∈ p2.trace → in_range r) →
        (∀ c e, (c, Reply.fail e) ∈ p2.trace → tested req c = true → ret = -e)
        ∧ ((∀ c e, (c, Reply.fail e) ∈ p2.trace → tested req c = false) →
            0 ≤ ret ∧ (ret = 0 ∨ ∃ c v d ent,
              (c, Reply.ok v d ent) ∈ p2.trace ∧ counts c = true ∧ ret = v)) := by
  refine ⟨enc_oper_returns exec data fuel req p hfit, ?_⟩
  intro ret p2 h hr
  obtain ⟨h1, h2⟩ := enc_oper_reports exec data fuel req p ret p2 hp h hr
  refine ⟨h1, fun hall => ?_⟩
  rcases h2 hall with h0 | ⟨c, v, d, ent, hm, hc, hv, hpos⟩
  · exact ⟨by rw [h0], Or.inl h0⟩
  · exact ⟨by rw [hv]; exact hpos, Or.inr ⟨c, v, d, ent, hm, hc, hv⟩⟩

theorem enc_oper_error_codes_witness :
    (enc_oper script_exec ⟨"k".toList, "/vault".toList⟩ 1
        (Request.read "/f".toList 5 0 : Request Unit)
        (scripted [.ok 3 [] none, .fail 5, .ok 0 [] none])).map (fun r => (r.1, r.2.trace))
      = some (-5, [(.open2 "/vault/f".toList O_RDONLY, .ok 3 [] none),
          (.pread 3 5 0, .fail 5), (.close 3, .ok 0 [] none)])
    ∧ (is_readdir (Request.read "/f".toList 5 0 : Request Unit) = false →
        ∃ res, enc_oper script_exec ⟨"k".toList, "/vault".toList⟩ 1
          (Request.read "/f".toList 5 0 : Request Unit)
          (scripted [.ok 3 [] none, .fail 5, .ok 0 [] none]) = some res)
    ∧ ∀ ret p2, enc_oper script_exec ⟨"k".toList, "/vault".toList⟩ 1
          (Request.read "/f".toList 5 0 : Request Unit)
          (scripted [.ok 3 [] none, .fail 5, .ok 0 [] none]) = some (ret, p2) →
        (∀ c r, (c, r) ∈ p2.trace → in_range r) →
        (∀ c e, (c, Reply.fail e) ∈ p2.trace →
          tested (Request.read "/f".toList 5 0 : Request Unit) c = true → ret = -e)
        ∧ ((∀ c e, (c, Reply.fail e) ∈ p2.trace →
            tested (Request.read "/f".toList 5 0 : Request Unit) c = false) →
            0 ≤ ret ∧ (ret = 0 ∨ ∃ c v d ent,
              (c, Reply.ok v d ent) ∈ p2.trace ∧ counts c = true ∧ ret = v)) :=
  ⟨by decide,
    enc_oper_error_codes script_exec ⟨"k".toList, "/vault".toList⟩ 1
      (Request.read "/f".toList 5 0 : Request Unit)
      (scripted [.ok 3 [] none, .fail 5, .ok 0 [] none]) rfl (by decide)⟩

/-! ## Instances of the theorems above at concrete inputs -/

theorem enc_utimens_truncates_witness :
    ∃ r tv0 tv1 rep,
      enc_utimens script_exec ⟨"k".toList, "/vault".toList⟩ "/f".toList ⟨5, 1⟩ ⟨7, 999999999⟩
        (scripted []) = some r
      ∧ r.proc.trace = [] ++ [(.utimes ("/vault".toList ++ "/f".toList) tv0 tv1, rep)]
      ∧ tv0.tv_sec = 5 ∧ tv1.tv_sec = 7
      ∧ tv0.tv_usec * 1000 ≤ 1 ∧ 1 < tv0.tv_usec * 1000 + 1000
      ∧ tv1.tv_usec * 1000 ≤ 999999999 ∧ 999999999 < tv1.tv_usec * 1000 + 1000
      ∧ (tv0.tv_usec * 1000 = 1 ↔ (1 : Int) % 1000 = 0)
      ∧ (tv1.tv_usec * 1000 = 999999999 ↔ (999999999 : Int) % 1000 = 0) :=
  enc_utimens_truncates script_exec ⟨"k".toList, "/vault".toList⟩ "/f".toList ⟨5, 1⟩
    ⟨7, 999999999⟩ (scripted []) (by decide) (by decide) (by decide)

theorem enc_read_returns_stored_witness :
    ∃ r, enc_read vault_exec ⟨"k".toList, "/vault".toList⟩ "/f".toList 2 2
        (start (vault_with "/vault/f".toList ⟨"abc".toList, [(ENC_XATTR, "true".toList)]⟩
          "/vault".toList [])) = some r
      ∧ r.out = slice "abc".toList 2 2
      ∧ r.ret = min 2 ("abc".toList.length - 2)
      ∧ r.proc.world.files
        = (start (vault_with "/vault/f".toList ⟨"abc".toList, [(ENC_XATTR, "true".toList)]⟩
          "/vault".toList [])).world.files
      ∧ ∀ key : CStr, enc_read vault_exec ⟨key, "/vault".toList⟩ "/f".toList 2 2
        (start (vault_with "/vault/f".toList ⟨"abc".toList, [(ENC_XATTR, "true".toList)]⟩
          "/vault".toList [])) = some r :=
  enc_read_returns_stored ⟨"k".toList, "/vault".toList⟩ "/f".toList 2 2
    (start (vault_with "/vault/f".toList ⟨"abc".toList, [(ENC_XATTR, "true".toList)]⟩
      "/vault".toList []))
    ⟨"abc".toList, [(ENC_XATTR, "true".toList)]⟩ (by decide) (by decide) (by decide)

theorem enc_write_splices_stored_witness :
    ∃ r g, enc_write vault_exec ⟨"k".toList, "/vault".toList⟩ "/f".toList "XY".toList 2 5
        (start (vault_with "/vault/f".toList ⟨"abc".toList, [(ENC_XATTR, "true".toList)]⟩
          "/vault".toList [])) = some r
      ∧ r.ret = ("XY".toList.take 2).length
      ∧ r.proc.world.files ("/vault".toList ++ "/f".toList) = some g
      ∧ g.content = splice "abc".toList 5 ("XY".toList.take 2)
      ∧ g.xattrs = [(ENC_XATTR, "true".toList)]
      ∧ marker g = marker ⟨"abc".toList, [(ENC_XATTR, "true".toList)]⟩
      ∧ ∀ q, q ≠ "/vault".toList ++ "/f".toList →
          r.proc.world.files q
            = (start (vault_with "/vault/f".toList
                ⟨"abc".toList, [(ENC_XATTR, "true".toList)]⟩ "/vault".toList [])).world.files q :=
  enc_write_splices_stored ⟨"k".toList, "/vault".toList⟩ "/f".toList "XY".toList 2 5
    (start (vault_with "/vault/f".toList ⟨"abc".toList, [(ENC_XATTR, "true".toList)]⟩
      "/vault".toList []))
    ⟨"abc".toList, [(ENC_XATTR, "true".toList)]⟩ (by decide) (by decide) (by decide)

end EncFs
